import Mathlib

/-!
# WorkBox: postbox and workers pool

A shallow embedding of `src/postbox.h` and `src/workbox.h`.

* A pointer `T*` is an `Option T`; `none` is `nullptr`.
* The deque `messagesQueue` is a list whose head is the front of the deque:
  `push_front` is cons, `back` is the last element, `pop_back` drops it.
* `activeWorkersCount` and the result of `messages_count()` are `int` values: integers
  reduced by `wrap32` at every increment, decrement and conversion. Loop indices stay
  below an `int` bound and are natural numbers.
* A call that can block returns `none` while it is blocked.
-/

/-- Value of a 32 bit two's complement `int` holding the integer `x`. -/
def wrap32 (x : Int) : Int := (x + 2147483648) % 4294967296 - 2147483648

namespace postbox

variable {α : Type}

/-- Member `std::deque::back`; the code calls it on a non-empty deque only. -/
def back (q : List (Option α)) : Option α := q.getLastD none

/-- Member `std::deque::pop_back`. -/
def pop_back (q : List (Option α)) : List (Option α) := q.dropLast

/-- Method `postbox::send` (postbox.h 83-93): `messagesQueue.push_front(message)` under the
lock; the `notify_one` that follows changes no data. -/
def send (q : List (Option α)) (message : Option α) : List (Option α) := message :: q

/-- Method `postbox::receive()` (postbox.h 95-116): `none` while the `while (empty) wait` loop
keeps the caller blocked, otherwise the returned pointer and the queue left behind. -/
def receive (q : List (Option α)) : Option (Option α × List (Option α)) :=
  if q.isEmpty then none else some (back q, pop_back q)

/-- Result of `condition_variable::wait_for`. -/
inductive cv_status
  | no_timeout
  | timeout
  deriving DecidableEq, Repr

/-- Method `postbox::receive(int timeout_ms)` (postbox.h 118-156). `q` is the queue when the
lock is first taken. `wait_for` releases the lock, so what it hands back is given by the
environment: `wait.1` is its status and `wait.2` the queue found when the lock is held
again. The wait is only consulted when `q` is empty. -/
def receive_timeout (q : List (Option α)) (wait : cv_status × List (Option α)) :
    Option α × List (Option α) :=
  if q.isEmpty then
    match wait.1 with
    | cv_status.no_timeout =>
      if !wait.2.isEmpty then (back wait.2, pop_back wait.2) else (none, wait.2)
    | cv_status.timeout => (none, wait.2)
  else (back q, pop_back q)

/-- Method `postbox::snatch` (postbox.h 158-176). -/
def snatch (q : List (Option α)) : Option α × List (Option α) :=
  if !q.isEmpty then (back q, pop_back q) else (none, q)

/-- Method `postbox::messages_count` (postbox.h 178-183): `size()` converted to `int`. -/
def messages_count (q : List (Option α)) : Int := wrap32 q.length

/-- The three ways a consumer can take a message. -/
inductive Retrieval (α : Type)
  | receive
  | receive_timeout (wait : cv_status × List (Option α))
  | snatch

/-- One retrieval by a consumer that holds the lock on queue `q`; `none` when the call
does not return (a blocking `receive()` on an empty box). -/
def retrieve (k : Retrieval α) (q : List (Option α)) : Option (Option α × List (Option α)) :=
  match k with
  | Retrieval.receive => receive q
  | Retrieval.receive_timeout wait => some (receive_timeout q wait)
  | Retrieval.snatch => some (snatch q)

/-- Successive retrievals by one consumer, collecting the returned pointers. -/
def drain : List (Retrieval α) → List (Option α) → Option (List (Option α) × List (Option α))
  | [], q => some ([], q)
  | k :: ks, q =>
    match retrieve k q with
    | none => none
    | some (m, q1) =>
      match drain ks q1 with
      | none => none
      | some (ms, q2) => some (m :: ms, q2)

/-- The queue after `send` was called on each element of `xs` in order. -/
def sendAll (q : List (Option α)) (xs : List (Option α)) : List (Option α) :=
  xs.foldl send q

/-- One completed call on the postbox, seen at the moment it last holds the lock.
For the timed receive `waited` tells whether the call found the box empty on entry and
comes back from `wait_for` with status `st`. -/
inductive Call (α : Type)
  | send (message : Option α)
  | receive
  | receive_timeout (waited : Bool) (st : cv_status)
  | snatch

/-- Bookkeeping for a run of calls: the queue, every pointer passed to `send`, and every
pointer handed out by a retrieval that took a message from the queue. -/
structure Box (α : Type) where
  messagesQueue : List (Option α)
  sent : List (Option α)
  returned : List (Option α)

/-- Record the outcome `(m, q1)` of a retrieval on box `b`: the pointer is logged when a
message left the queue. -/
def Box.took (b : Box α) (r : Option α × List (Option α)) : Box α :=
  if r.2.length < b.messagesQueue.length then
    { b with messagesQueue := r.2, returned := b.returned ++ [r.1] }
  else { b with messagesQueue := r.2 }

/-- Effect of one call on the box. -/
def Box.step (b : Box α) : Call α → Box α
  | Call.send m => { b with messagesQueue := send b.messagesQueue m, sent := b.sent ++ [m] }
  | Call.receive =>
    match receive b.messagesQueue with
    | none => b
    | some r => b.took r
  | Call.receive_timeout waited st =>
    b.took (receive_timeout (if waited then [] else b.messagesQueue) (st, b.messagesQueue))
  | Call.snatch => b.took (snatch b.messagesQueue)

/-- Run a sequence of calls, in the order in which they hold the lock. -/
def Box.run (b : Box α) (cs : List (Call α)) : Box α := cs.foldl Box.step b

end postbox

/-! ## Work requests (`workbox.h` 34-109) -/

/-- Class `WorkRequest<valuesTypes...>` with the fields of `BaseWorkRequest`. `A` is the tuple
type of the bound arguments, `σ` the memory the work function acts on; `resultBell` and
`bellMutex` tell whether the pointer of that name is non-null. -/
structure WorkRequest (σ A : Type) where
  workFunction : A → σ → σ
  storeArgs : A
  workDone : Bool
  resultBell : Bool
  bellMutex : Bool

namespace WorkRequest

variable {σ A : Type}

/-- Method `waitForWorkDone` of a request (workbox.h 81-88): `none` while the caller stays blocked in
`wait(mLock, pred)`, otherwise the request as the caller finds it on return. -/
def waitForWorkDone (r : WorkRequest σ A) : Option (WorkRequest σ A) :=
  if r.resultBell then (if r.workDone then some r else none) else some r

end WorkRequest

/-- A `BaseWorkRequest` as the pool handles it: `id` stands for its address,
`resultBell` tells whether it was built with a result bell. -/
structure BaseWorkRequest where
  id : Nat
  resultBell : Bool
  deriving DecidableEq, Repr

/-- Where a worker thread stands in `workProcessingLoop` (workbox.h 167-206); each
position names the shared access it is about to make. -/
inductive WorkerPc
  /-- Line 173: test `isRunning || isNotTermMessage`. -/
  | loopTest
  /-- Line 175: `poolWorkBox.receive()`. -/
  | receive
  /-- Line 179: `activeWorkersCount++` with the dequeued request in hand. -/
  | count (m : BaseWorkRequest)
  /-- Lines 181, 92-94: invoke the work function and test the request's `resultBell`. -/
  | call (m : BaseWorkRequest)
  /-- Lines 96-99: set the request's `workDone` under its `bellMutex`. -/
  | bell (m : BaseWorkRequest)
  /-- Line 100: `resultBell-> notify_one()` on the request. -/
  | ring (m : BaseWorkRequest)
  /-- Lines 183-187: read the request's `resultBell`, delete the request when it is null. -/
  | del (m : BaseWorkRequest)
  /-- Line 189: `activeWorkersCount--`. -/
  | uncount
  /-- Line 195: `resultBell && !activeWorkersCount`. -/
  | chkActive
  /-- Line 195: `!poolWorkBox.messages_count()`. -/
  | chkCount
  /-- Lines 198-202: set the pool's `workDone` and notify. -/
  | setDone
  /-- The loop was left; the thread has finished. -/
  | exited
  deriving DecidableEq, Repr

/-- A worker thread: its position and its local `isNotTermMessage`. -/
structure Worker where
  pc : WorkerPc
  isNotTermMessage : Bool
  deriving DecidableEq, Repr

/-- Where the controlling thread stands inside `runThreads` (workbox.h 208-225) or
`joinThreads` (227-248). `ret` of the join positions is `some n` when `joinThreads` was
entered from `runThreads(n)`. -/
inductive CtlPc
  /-- Not inside a pool call. -/
  | idle
  /-- Line 212: `if (isRunning) joinThreads()`. -/
  | runTest (n : Int)
  /-- Line 215: `threadsCount = threadsToRun`. -/
  | runCount (n : Int)
  /-- Line 216: `isRunning = true`. -/
  | runFlag (n : Int)
  /-- Line 218: `threads.resize(threadsToRun, nullptr)`. -/
  | runResize (n : Int)
  /-- Lines 220-224: loop test and body for index `i`. -/
  | runSpawn (i : Nat) (n : Int)
  /-- Line 229: `isRunning = false`. -/
  | joinFlag (ret : Option Int)
  /-- Lines 231-234: loop test and `send(terminateMessage)` for index `i`. -/
  | joinSend (i : Nat) (ret : Option Int)
  /-- Lines 236-239: loop test and `threads[i]->join()` for index `i`. -/
  | joinWait (i : Nat) (ret : Option Int)
  /-- Lines 241-245: loop test and `delete(threads[i])` for index `i`. -/
  | joinDel (i : Nat) (ret : Option Int)
  /-- Line 247: `threads.clear()`. -/
  | joinClear (ret : Option Int)
  /-- An exception left `runThreads` (`resize` with a negative count) or the behaviour is
  undefined (`threads[i]` out of range or null). -/
  | crashed
  deriving DecidableEq, Repr

/-- State of a `workersPool` with its threads. The fields up to `threads` are the data
members; `terminateMessage` is never assigned and stays `nullptr`, written `none`.
`workers` are the threads ever started by `runThreads`, a handle in `threads` is the
index of its thread. The remaining fields are records kept for the proofs. -/
structure workersPool where
  isRunning : Bool
  threadsCount : Int
  activeWorkersCount : Int
  workDone : Bool
  /-- Whether `resultBell` (and `bellMutex`) is non-null. -/
  resultBell : Bool
  poolWorkBox : List (Option BaseWorkRequest)
  threads : List (Option Nat)
  workers : List Worker
  ctl : CtlPc
  /-- Every pointer passed to `poolWorkBox.send`, in order. -/
  sent : List (Option BaseWorkRequest)
  /-- Every pointer returned by `poolWorkBox.receive()`, in order. -/
  received : List (Option BaseWorkRequest)
  /-- Ids of the requests whose work function was invoked, in order. -/
  called : List Nat
  /-- Ids of the requests whose `workDone` was set. -/
  done : List Nat
  /-- Ids of the requests for which a submitter's `waitForWorkDone()` has returned. -/
  awaited : List Nat
  /-- Ids of the deleted requests. -/
  freed : List Nat
  /-- Ids of requests a worker read, wrote or deleted after they had been deleted. -/
  stale : List Nat
  deriving DecidableEq, Repr

namespace workersPool

/-- Constructors `workersPool()` and `workersPool(bool sendPoolNotification)`
(workbox.h 131-140); the default constructor is `fresh false`. -/
def fresh (sendPoolNotification : Bool) : workersPool :=
  { isRunning := false, threadsCount := 0, activeWorkersCount := 0, workDone := false,
    resultBell := sendPoolNotification, poolWorkBox := [], threads := [], workers := [],
    ctl := CtlPc.idle, sent := [], received := [], called := [], done := [],
    awaited := [], freed := [], stale := [] }

/-- Method `sendWork` (workbox.h 153-156) and the `poolWorkBox.send` of `joinThreads`. -/
def sendWork (s : workersPool) (workMessage : Option BaseWorkRequest) : workersPool :=
  { s with poolWorkBox := postbox.send s.poolWorkBox workMessage,
           sent := s.sent ++ [workMessage] }

/-- Method `waitForWorkDone` of the pool (workbox.h 158-165): `none` while the caller stays
blocked. -/
def waitForWorkDone (s : workersPool) : Option workersPool :=
  if s.resultBell then (if s.workDone then some s else none) else some s

/-- Replace worker `i`. -/
def setWorker (s : workersPool) (i : Nat) (w : Worker) : workersPool :=
  { s with workers := s.workers.set i w }

/-- A worker touches request `m`: recorded in `stale` when `m` was deleted before. -/
def touch (s : workersPool) (m : BaseWorkRequest) : workersPool :=
  if m.id ∈ s.freed then { s with stale := s.stale ++ [m.id] } else s

/-- One turn of worker `i`, whose state is `w`, in `workProcessingLoop`
(workbox.h 167-206). A worker blocked in `receive()` leaves the state as it is. -/
def workProcessingLoop (s : workersPool) (i : Nat) (w : Worker) : workersPool :=
  match w.pc with
  | WorkerPc.loopTest =>
    if s.isRunning || w.isNotTermMessage then s.setWorker i { w with pc := WorkerPc.receive }
    else s.setWorker i { w with pc := WorkerPc.exited }
  | WorkerPc.receive =>
    match postbox.receive s.poolWorkBox with
    | none => s
    | some (theWorkMessage, q) =>
      let s1 := { s with poolWorkBox := q, received := s.received ++ [theWorkMessage] }
      match theWorkMessage with
      | some m => s1.setWorker i { w with pc := WorkerPc.count m }
      | none => s1.setWorker i { pc := WorkerPc.chkActive, isNotTermMessage := false }
  | WorkerPc.count m =>
    { s with activeWorkersCount := wrap32 (s.activeWorkersCount + 1) }.setWorker i
      { w with pc := WorkerPc.call m }
  | WorkerPc.call m =>
    let s1 := s.touch m
    { s1 with called := s1.called ++ [m.id] }.setWorker i
      { w with pc := if m.resultBell then WorkerPc.bell m else WorkerPc.del m }
  | WorkerPc.bell m =>
    let s1 := s.touch m
    { s1 with done := s1.done ++ [m.id] }.setWorker i { w with pc := WorkerPc.ring m }
  | WorkerPc.ring m => (s.touch m).setWorker i { w with pc := WorkerPc.del m }
  | WorkerPc.del m =>
    let s1 := s.touch m
    let s2 := if !m.resultBell then { s1 with freed := s1.freed ++ [m.id] } else s1
    s2.setWorker i { w with pc := WorkerPc.uncount }
  | WorkerPc.uncount =>
    { s with activeWorkersCount := wrap32 (s.activeWorkersCount - 1) }.setWorker i
      { w with pc := WorkerPc.chkActive }
  | WorkerPc.chkActive =>
    if s.resultBell && s.activeWorkersCount == 0 then
      s.setWorker i { w with pc := WorkerPc.chkCount }
    else s.setWorker i { w with pc := WorkerPc.loopTest }
  | WorkerPc.chkCount =>
    if postbox.messages_count s.poolWorkBox == 0 then
      s.setWorker i { w with pc := WorkerPc.setDone }
    else s.setWorker i { w with pc := WorkerPc.loopTest }
  | WorkerPc.setDone =>
    { s with workDone := true }.setWorker i { w with pc := WorkerPc.loopTest }
  | WorkerPc.exited => s

/-- Call `threads.resize(n, nullptr)` for `n >= 0`. -/
def resize (threads : List (Option Nat)) (n : Nat) : List (Option Nat) :=
  (threads ++ List.replicate n none).take n

/-- One turn of the controlling thread inside `runThreads` (workbox.h 208-225). The
call of `joinThreads()` on a running pool hands over to the join positions, which come
back to `threadsCount = threadsToRun` when they are done. -/
def runThreads (s : workersPool) : workersPool :=
  match s.ctl with
  | CtlPc.runTest n =>
    if s.isRunning then { s with ctl := CtlPc.joinFlag (some n) }
    else { s with ctl := CtlPc.runCount n }
  | CtlPc.runCount n => { s with threadsCount := n, ctl := CtlPc.runFlag n }
  | CtlPc.runFlag n => { s with isRunning := true, ctl := CtlPc.runResize n }
  | CtlPc.runResize n =>
    if n < 0 then { s with ctl := CtlPc.crashed }
    else { s with threads := resize s.threads n.toNat, ctl := CtlPc.runSpawn 0 n }
  | CtlPc.runSpawn i n =>
    if (i : Int) < n then
      { s with workers := s.workers ++ [{ pc := WorkerPc.loopTest, isNotTermMessage := true }],
               threads := s.threads.set i (some s.workers.length),
               ctl := CtlPc.runSpawn (i + 1) n }
    else { s with ctl := CtlPc.idle }
  | _ => s

/-- One turn of the controlling thread inside `joinThreads` (workbox.h 227-248). A
`join()` on a thread that has not finished leaves the state as it is. -/
def joinThreads (s : workersPool) : workersPool :=
  match s.ctl with
  | CtlPc.joinFlag ret => { s with isRunning := false, ctl := CtlPc.joinSend 0 ret }
  | CtlPc.joinSend i ret =>
    if (i : Int) < s.threadsCount then
      { s.sendWork none with ctl := CtlPc.joinSend (i + 1) ret }
    else { s with ctl := CtlPc.joinWait 0 ret }
  | CtlPc.joinWait i ret =>
    if (i : Int) < s.threadsCount then
      match s.threads[i]? with
      | some (some t) =>
        match s.workers[t]? with
        | some w =>
          if w.pc = WorkerPc.exited then { s with ctl := CtlPc.joinWait (i + 1) ret } else s
        | none => { s with ctl := CtlPc.crashed }
      | _ => { s with ctl := CtlPc.crashed }
    else { s with ctl := CtlPc.joinDel 0 ret }
  | CtlPc.joinDel i ret =>
    if (i : Int) < s.threadsCount then
      match s.threads[i]? with
      | some _ => { s with ctl := CtlPc.joinDel (i + 1) ret }
      | none => { s with ctl := CtlPc.crashed }
    else { s with ctl := CtlPc.joinClear ret }
  | CtlPc.joinClear ret =>
    { s with threads := [],
             ctl := match ret with
               | none => CtlPc.idle
               | some n => CtlPc.runCount n }
  | _ => s

/-- One turn of the controlling thread, by the call it is in. -/
def ctlStep (s : workersPool) : workersPool :=
  match s.ctl with
  | CtlPc.idle => s
  | CtlPc.crashed => s
  | CtlPc.runTest _ => s.runThreads
  | CtlPc.runCount _ => s.runThreads
  | CtlPc.runFlag _ => s.runThreads
  | CtlPc.runResize _ => s.runThreads
  | CtlPc.runSpawn _ _ => s.runThreads
  | CtlPc.joinFlag _ => s.joinThreads
  | CtlPc.joinSend _ _ => s.joinThreads
  | CtlPc.joinWait _ _ => s.joinThreads
  | CtlPc.joinDel _ _ => s.joinThreads
  | CtlPc.joinClear _ => s.joinThreads

end workersPool

/-- Whose turn it is. -/
inductive Event
  /-- Some thread calls `sendWork(workMessage)`. -/
  | sendWork (workMessage : Option BaseWorkRequest)
  /-- The controlling thread calls `runThreads(threadsToRun)`. -/
  | runThreads (threadsToRun : Int)
  /-- The controlling thread calls `joinThreads()`. -/
  | joinThreads
  /-- The controlling thread takes its next turn inside the call it is in. -/
  | main
  /-- Worker thread `i` takes its next turn. -/
  | work (i : Nat)
  /-- A submitter's `m->waitForWorkDone()` finds its condition true and returns. -/
  | await (m : BaseWorkRequest)
  /-- A submitter for which `m->waitForWorkDone()` has returned deletes `m`. -/
  | release (m : BaseWorkRequest)
  deriving DecidableEq, Repr

namespace workersPool

/-- The state after one turn. A turn that cannot be taken leaves the state as it is. -/
def step (s : workersPool) : Event → workersPool
  | Event.sendWork m => s.sendWork m
  | Event.runThreads n => if s.ctl = CtlPc.idle then { s with ctl := CtlPc.runTest n } else s
  | Event.joinThreads =>
    if s.ctl = CtlPc.idle then { s with ctl := CtlPc.joinFlag none } else s
  | Event.main => s.ctlStep
  | Event.work i =>
    match s.workers[i]? with
    | some w => s.workProcessingLoop i w
    | none => s
  | Event.await m =>
    if !m.resultBell || m.id ∈ s.done then { s with awaited := s.awaited ++ [m.id] } else s
  | Event.release m =>
    if m.id ∈ s.awaited then { s with freed := s.freed ++ [m.id] } else s

/-- The state after a sequence of turns. -/
def run (s : workersPool) (es : List Event) : workersPool := es.foldl step s

/-- Workers between the increment and the decrement of `activeWorkersCount`. -/
def between (w : Worker) : Bool :=
  match w.pc with
  | WorkerPc.call _ | WorkerPc.bell _ | WorkerPc.ring _ | WorkerPc.del _
  | WorkerPc.uncount => true
  | _ => false

/-- Workers that have not left their loop. -/
def live (w : Worker) : Bool := decide (w.pc ≠ WorkerPc.exited)

/-- Position of worker `i`, if there is one. -/
def pcOf (s : workersPool) (i : Nat) : Option WorkerPc := (s.workers[i]?).map Worker.pc

/-- Every `runThreads` is called with an `int` that is not negative. -/
def okEvent : Event → Bool
  | Event.runThreads n => decide (0 ≤ n) && decide (n < 2147483648)
  | _ => true

end workersPool


/-! ## Invariants of the pool -/

namespace workersPool

/-- No worker thread is still inside its loop. -/
def Quiet (s : workersPool) : Prop :=
  ∀ (t : Nat) (w : Worker), s.workers[t]? = some w → w.pc = WorkerPc.exited

/-- Every worker still inside its loop has its handle in `threads` at an index from `i`
on. -/
def Cover (s : workersPool) (i : Nat) : Prop :=
  ∀ (t : Nat) (w : Worker), s.workers[t]? = some w → w.pc ≠ WorkerPc.exited →
    ∃ j, i ≤ j ∧ s.threads[j]? = some (some t)

/-- Every worker still inside its loop has its handle in `threads` at an index below
`i`. -/
def CoverBelow (s : workersPool) (i : Nat) : Prop :=
  ∀ (t : Nat) (w : Worker), s.workers[t]? = some w → w.pc ≠ WorkerPc.exited →
    ∃ j, j < i ∧ s.threads[j]? = some (some t)

/-- A thread count that is a non-negative `int`. -/
def okCount (n : Int) : Prop := 0 ≤ n ∧ n < 2147483648

/-- The pending `runThreads` argument of a join, if any, is a non-negative `int`. -/
def okRet : Option Int → Prop
  | none => True
  | some n => okCount n

/-- What holds of handles and threads at each position of the controlling thread. -/
def CtlInv (s : workersPool) : Prop :=
  match s.ctl with
  | CtlPc.idle => Cover s 0 ∧ (s.isRunning = false → s.threads = [])
  | CtlPc.runTest n => Cover s 0 ∧ (s.isRunning = false → s.threads = []) ∧ okCount n
  | CtlPc.runCount n => Quiet s ∧ s.threads = [] ∧ okCount n
  | CtlPc.runFlag n => Quiet s ∧ s.threads = [] ∧ okCount n ∧ s.threadsCount = n
  | CtlPc.runResize n =>
    Quiet s ∧ s.threads = [] ∧ okCount n ∧ s.threadsCount = n ∧ s.isRunning = true
  | CtlPc.runSpawn i n =>
    CoverBelow s i ∧ s.threadsCount = n ∧ (s.threads.length : Int) = n ∧ (i : Int) ≤ n ∧
      s.workers.countP live ≤ i ∧ s.isRunning = true
  | CtlPc.joinFlag ret => Cover s 0 ∧ okRet ret
  | CtlPc.joinSend _ ret => Cover s 0 ∧ okRet ret
  | CtlPc.joinWait i ret => Cover s i ∧ okRet ret
  | CtlPc.joinDel _ ret => Quiet s ∧ okRet ret
  | CtlPc.joinClear ret => Quiet s ∧ okRet ret
  | CtlPc.crashed => True

/-- Invariant of counters, handles and threads. -/
structure InvC (s : workersPool) : Prop where
  active : s.activeWorkersCount = (s.workers.countP between : Int)
  liveLe : (s.workers.countP live : Int) ≤ s.threadsCount
  countLt : s.threadsCount < 2147483648
  lenLe : (s.threads.length : Int) ≤ s.threadsCount
  ctl : CtlInv s

/-- Invariant of the message flow. -/
structure InvF (s : workersPool) : Prop where
  fifo : s.sent = s.received ++ s.poolWorkBox.reverse
  exitedTerm : ∀ (t : Nat) (w : Worker), s.workers[t]? = some w → w.pc = WorkerPc.exited →
    w.isNotTermMessage = false
  termRecv : ∀ (t : Nat) (w : Worker), s.workers[t]? = some w → w.isNotTermMessage = false →
    none ∈ s.received
  held : ∀ m, some m ∈ s.received → m.id ∈ s.called ∨
    ∃ (t : Nat) (w : Worker), s.workers[t]? = some w ∧ (w.pc = WorkerPc.count m ∨ w.pc = WorkerPc.call m)

/-- Local state of a worker after its turn. -/
def nextWorker (s : workersPool) (w : Worker) : Worker :=
  match w.pc with
  | WorkerPc.loopTest =>
    if s.isRunning || w.isNotTermMessage then { w with pc := WorkerPc.receive }
    else { w with pc := WorkerPc.exited }
  | WorkerPc.receive =>
    match postbox.receive s.poolWorkBox with
    | none => w
    | some (some m, _) => { w with pc := WorkerPc.count m }
    | some (none, _) => { pc := WorkerPc.chkActive, isNotTermMessage := false }
  | WorkerPc.count m => { w with pc := WorkerPc.call m }
  | WorkerPc.call m => { w with pc := if m.resultBell then WorkerPc.bell m else WorkerPc.del m }
  | WorkerPc.bell m => { w with pc := WorkerPc.ring m }
  | WorkerPc.ring m => { w with pc := WorkerPc.del m }
  | WorkerPc.del _ => { w with pc := WorkerPc.uncount }
  | WorkerPc.uncount => { w with pc := WorkerPc.chkActive }
  | WorkerPc.chkActive =>
    if s.resultBell && s.activeWorkersCount == 0 then { w with pc := WorkerPc.chkCount }
    else { w with pc := WorkerPc.loopTest }
  | WorkerPc.chkCount =>
    if postbox.messages_count s.poolWorkBox == 0 then { w with pc := WorkerPc.setDone }
    else { w with pc := WorkerPc.loopTest }
  | WorkerPc.setDone => { w with pc := WorkerPc.loopTest }
  | WorkerPc.exited => w

/-- Turns that may happen between the call of `runThreads` and the call of
`joinThreads` when requests are submitted to a started pool: no further pool call is
made and only real requests, no null pointer, are submitted. -/
def beforeJoin : Event → Bool
  | Event.sendWork (some _) => true
  | Event.sendWork none => false
  | Event.runThreads _ => false
  | Event.joinThreads => false
  | _ => true

/-- The pointers passed to `sendWork` by a sequence of turns, in order. -/
def submitted : List Event → List (Option BaseWorkRequest)
  | [] => []
  | Event.sendWork m :: es => m :: submitted es
  | _ :: es => submitted es

/-- Turns that do not call `sendWork`. -/
def noSend : Event → Bool
  | Event.sendWork _ => false
  | _ => true

/-- The controlling thread is not inside `joinThreads` and will not enter it by itself. -/
def NoJoin (s : workersPool) : Prop :=
  match s.ctl with
  | CtlPc.idle => True
  | CtlPc.runTest _ => s.isRunning = false
  | CtlPc.runCount _ => True
  | CtlPc.runFlag _ => True
  | CtlPc.runResize _ => True
  | CtlPc.runSpawn _ _ => True
  | CtlPc.crashed => True
  | _ => False

/-- The shutdown scenario: `runThreads(n)` on a fresh pool, the turns `pre` up to the call
of `joinThreads()`, and the turns `post` after it. -/
def shutdownRun (b : Bool) (n : Int) (pre post : List Event) : workersPool :=
  (fresh b).run (Event.runThreads n :: pre ++ Event.joinThreads :: post)

/-- Two workers, one request without a bell: `runThreads(2)` completes, the request is
submitted, worker 0 dequeues it and stops just before `activeWorkersCount++`. -/
def racePre : List Event :=
  [Event.main, Event.main, Event.main, Event.main, Event.main, Event.main, Event.main,
   Event.sendWork (some ⟨0, false⟩), Event.work 0, Event.work 0]

/-- After the call of `joinThreads()`: `isRunning = false`, one terminate message is sent,
worker 1 dequeues it and leaves its loop. -/
def racePost : List Event :=
  [Event.main, Event.main, Event.work 1, Event.work 1, Event.work 1, Event.work 1]

/-- Change of `activeWorkersCount` made by the turn of a worker at position `pc`. -/
def delta (pc : WorkerPc) : Int :=
  match pc with
  | WorkerPc.count _ => 1
  | WorkerPc.uncount => -1
  | _ => 0

/-- The turns of an uninterrupted `runThreads(n)`: the call and `k` turns of the
controlling thread. -/
def callRunThreads (n : Int) (k : Nat) : List Event :=
  Event.runThreads n :: List.replicate k Event.main

/-- A pool with notification and one worker: `runThreads(1)` completes, request 1 is
submitted and processed to the end of the loop body, where the worker finds no active
worker and an empty box and sets `workDone`; then request 2 is submitted. -/
def earlyDone : List Event :=
  callRunThreads 1 6 ++
  [Event.sendWork (some ⟨1, false⟩),
   Event.work 0, Event.work 0, Event.work 0, Event.work 0, Event.work 0, Event.work 0,
   Event.work 0, Event.work 0, Event.work 0,
   Event.sendWork (some ⟨2, false⟩)]

/-- Two workers and two requests: `runThreads(2)` completes, both requests are submitted,
worker 0 is past `activeWorkersCount++` with the first request, worker 1 has dequeued the
second and not yet incremented. -/
def twoBusy : List Event :=
  callRunThreads 2 7 ++
  [Event.sendWork (some ⟨1, false⟩), Event.sendWork (some ⟨2, true⟩),
   Event.work 0, Event.work 0, Event.work 0, Event.work 1, Event.work 1]

/-- One worker and a request with a result bell: the worker runs the request and sets its
`workDone`; the submitter's `waitForWorkDone()` returns and the submitter deletes the
request; the worker goes on with `resultBell-> notify_one()`. -/
def handOff : List Event :=
  callRunThreads 1 6 ++
  [Event.sendWork (some ⟨7, true⟩),
   Event.work 0, Event.work 0, Event.work 0, Event.work 0, Event.work 0,
   Event.await ⟨7, true⟩, Event.release ⟨7, true⟩,
   Event.work 0]

/-- The turns of `runThreads(1); joinThreads();` with the worker taking its terminate
message and leaving, up to the return of `joinThreads()`. -/
def runJoin : List Event :=
  callRunThreads 1 6 ++
  [Event.joinThreads, Event.main, Event.main, Event.main,
   Event.work 0, Event.work 0, Event.work 0, Event.work 0,
   Event.main, Event.main, Event.main, Event.main, Event.main]

/-- A second `joinThreads()` up to its first `threads[0]->join()`. -/
def joinAgain : List Event :=
  [Event.joinThreads, Event.main, Event.main, Event.main]

end workersPool
namespace postbox

variable {α : Type}

theorem sendAll_eq (q xs : List (Option α)) : sendAll q xs = xs.reverse ++ q := by
  induction xs generalizing q with
  | nil => simp [sendAll]
  | cons x xs ih =>
    have h := ih (send q x)
    simp only [sendAll, List.foldl_cons] at h ⊢
    rw [h]
    simp [send]

theorem back_concat (q : List (Option α)) (x : Option α) : back (q ++ [x]) = x := by
  simp [back, List.getLastD_concat]

theorem pop_back_concat (q : List (Option α)) (x : Option α) : pop_back (q ++ [x]) = q := by
  simp [pop_back]

theorem sendAll_cons (x : Option α) (xs : List (Option α)) :
    sendAll [] (x :: xs) = sendAll [] xs ++ [x] := by
  simp [sendAll_eq]

theorem retrieve_concat (k : Retrieval α) (q : List (Option α)) (x : Option α) :
    retrieve k (q ++ [x]) = some (x, q) := by
  cases k <;>
    simp [retrieve, receive, receive_timeout, snatch, back_concat, pop_back_concat]

theorem drain_sendAll (xs : List (Option α)) :
    ∀ ks : List (Retrieval α), ks.length = xs.length →
      drain ks (sendAll [] xs) = some (xs, []) := by
  induction xs with
  | nil =>
    intro ks h
    cases ks with
    | nil => simp [drain, sendAll]
    | cons k ks => simp at h
  | cons x xs ih =>
    intro ks h
    cases ks with
    | nil => simp at h
    | cons k ks =>
      have hk : ks.length = xs.length := by simpa using h
      rw [sendAll_cons, drain, retrieve_concat]
      simp [ih ks hk]

end postbox

namespace postbox

variable {α : Type}

/-- C1. Strict FIFO: after `send` was called on `xs` in order on an empty postbox, any
`xs.length` retrievals by one consumer (blocking receive, timed receive, snatch, in any
mix) all return, yield exactly `xs` in submission order and leave the box empty; and each
single retrieval returns the oldest message and leaves the later ones queued in order. -/
theorem fifo_order (xs : List (Option α)) (ks : List (Retrieval α))
    (h : ks.length = xs.length) :
    drain ks (sendAll [] xs) = some (xs, []) ∧
    ∀ (k : Retrieval α) (x : Option α) (rest : List (Option α)),
      retrieve k (sendAll [] (x :: rest)) = some (x, sendAll [] rest) := by
  refine ⟨drain_sendAll xs ks h, ?_⟩
  intro k x rest
  rw [sendAll_cons, retrieve_concat]

theorem fifo_order_witness :
    drain [Retrieval.receive, Retrieval.snatch,
        Retrieval.receive_timeout (cv_status.timeout, [])]
      (sendAll [] [some 1, some 2, some 3]) = some ([some 1, some 2, some 3], []) ∧
    ∀ (k : Retrieval Nat) (x : Option Nat) (rest : List (Option Nat)),
      retrieve k (sendAll [] (x :: rest)) = some (x, sendAll [] rest) :=
  fifo_order [some 1, some 2, some 3]
    [Retrieval.receive, Retrieval.snatch, Retrieval.receive_timeout (cv_status.timeout, [])]
    (by decide)

end postbox

namespace postbox

variable {α : Type}

theorem eq_pop_back_back (q : List (Option α)) (h : q ≠ []) :
    q = pop_back q ++ [back q] := by
  obtain ⟨q1, x, rfl⟩ : ∃ q1 x, q = q1 ++ [x] :=
    ⟨q.dropLast, q.getLast h, (List.dropLast_append_getLast h).symm⟩
  simp [back_concat, pop_back_concat]

/-- C6, counterexample. The wait ends by timeout while a message was queued in the
meantime: the timed receive returns `nullptr` although the queue holds a message at the
moment it returns. -/
theorem timed_receive_absent_with_item_queued :
    (receive_timeout ([] : List (Option Nat)) (cv_status.timeout, [some 1])).1 = none ∧
    (receive_timeout ([] : List (Option Nat)) (cv_status.timeout, [some 1])).2 = [some 1] := by
  decide

/-- The single check after an early wake-up: woken before the deadline with the queue
still empty, the timed receive returns `nullptr` at once instead of waiting on. -/
theorem timed_receive_early_wake_empty :
    receive_timeout ([] : List (Option Nat)) (cv_status.no_timeout, []) = (none, []) := by
  decide

/-- C6, amended. Timed receive, by the way the wait ends: on a non-empty box it returns
the oldest message at once; on an empty box, when the wait reports the deadline it returns
`nullptr` without looking at the queue again; when woken before the deadline with a
message queued it returns the oldest message; and whenever it returns a non-null pointer
that pointer was the oldest queued message and has been removed. -/
theorem timed_receive (q : List (Option α)) (wait : cv_status × List (Option α)) :
    (q ≠ [] → receive_timeout q wait = (back q, pop_back q)) ∧
    (q = [] → wait.1 = cv_status.timeout → receive_timeout q wait = (none, wait.2)) ∧
    (q = [] → wait.1 = cv_status.no_timeout → wait.2 ≠ [] →
      receive_timeout q wait = (back wait.2, pop_back wait.2)) ∧
    (∀ x, (receive_timeout q wait).1 = some x →
      (if q.isEmpty then wait.2 else q) = (receive_timeout q wait).2 ++ [some x]) := by
  obtain ⟨st, qw⟩ := wait
  refine ⟨?_, ?_, ?_, ?_⟩
  · intro h
    have : q.isEmpty = false := by simpa using h
    simp [receive_timeout, this]
  · rintro rfl h
    simp only at h
    subst h
    simp [receive_timeout]
  · rintro rfl h hw
    simp only at h hw
    subst h
    have : qw.isEmpty = false := by simpa using hw
    simp [receive_timeout, this]
  · intro x hx
    by_cases hq : q = []
    · subst hq
      by_cases hw : qw = []
      · subst hw
        cases st <;> simp [receive_timeout] at hx
      · have hwe : qw.isEmpty = false := by simpa using hw
        cases st
        · simp [receive_timeout, hwe] at hx ⊢
          rw [← hx]
          exact eq_pop_back_back qw hw
        · simp [receive_timeout] at hx
    · have hqe : q.isEmpty = false := by simpa using hq
      simp [receive_timeout, hqe] at hx ⊢
      rw [← hx]
      exact eq_pop_back_back q hq

theorem timed_receive_witness :
    receive_timeout [some 4, some 3] (cv_status.timeout, ([] : List (Option Nat)))
      = (some 3, [some 4]) :=
  (timed_receive [some 4, some 3] (cv_status.timeout, [])).1 (by decide)

end postbox

namespace WorkRequest

variable {σ A : Type}

end WorkRequest

namespace workersPool

theorem countP_set_add {β : Type} (p : β → Bool) (l : List β) (i : Nat) (w w1 : β)
    (h : l[i]? = some w) :
    (l.set i w1).countP p + (if p w then 1 else 0) = l.countP p + (if p w1 then 1 else 0) := by
  induction l generalizing i with
  | nil => simp at h
  | cons a l ih =>
    cases i with
    | zero =>
      simp only [List.getElem?_cons_zero, Option.some.injEq] at h
      subst h
      simp only [List.set_cons_zero, List.countP_cons]
      omega
    | succ i =>
      simp only [List.getElem?_cons_succ] at h
      have := ih i h
      simp only [List.set_cons_succ, List.countP_cons]
      omega

theorem getElem?_set_some {β : Type} (l : List β) (i t : Nat) (w1 x : β)
    (h : (l.set i w1)[t]? = some x) :
    (t = i ∧ x = w1 ∧ i < l.length) ∨ (t ≠ i ∧ l[t]? = some x) := by
  rw [List.getElem?_set] at h
  by_cases hti : i = t
  · subst hti
    left
    simp only [if_true] at h
    by_cases hl : i < l.length
    · simp [hl] at h
      exact ⟨rfl, h.symm, hl⟩
    · simp [hl] at h
  · right
    simp only [hti, if_false] at h
    exact ⟨fun h1 => hti h1.symm, h⟩


theorem receive_some (q : List (Option BaseWorkRequest)) (m : Option BaseWorkRequest)
    (q1 : List (Option BaseWorkRequest)) (h : postbox.receive q = some (m, q1)) :
    q = q1 ++ [m] := by
  unfold postbox.receive at h
  by_cases hq : q = []
  · subst hq; simp at h
  · have hqe : q.isEmpty = false := by simpa using hq
    simp only [hqe, Bool.false_eq_true, if_false, Option.some.injEq, Prod.mk.injEq] at h
    rw [← h.1, ← h.2]
    exact postbox.eq_pop_back_back q hq

@[simp] theorem touch_sent (s : workersPool) (m : BaseWorkRequest) :
    (s.touch m).sent = s.sent := by unfold touch; split <;> rfl

@[simp] theorem touch_received (s : workersPool) (m : BaseWorkRequest) :
    (s.touch m).received = s.received := by unfold touch; split <;> rfl

@[simp] theorem touch_poolWorkBox (s : workersPool) (m : BaseWorkRequest) :
    (s.touch m).poolWorkBox = s.poolWorkBox := by unfold touch; split <;> rfl

@[simp] theorem touch_workers (s : workersPool) (m : BaseWorkRequest) :
    (s.touch m).workers = s.workers := by unfold touch; split <;> rfl

@[simp] theorem touch_called (s : workersPool) (m : BaseWorkRequest) :
    (s.touch m).called = s.called := by unfold touch; split <;> rfl

@[simp] theorem touch_threads (s : workersPool) (m : BaseWorkRequest) :
    (s.touch m).threads = s.threads := by unfold touch; split <;> rfl

@[simp] theorem touch_ctl (s : workersPool) (m : BaseWorkRequest) :
    (s.touch m).ctl = s.ctl := by unfold touch; split <;> rfl

@[simp] theorem touch_isRunning (s : workersPool) (m : BaseWorkRequest) :
    (s.touch m).isRunning = s.isRunning := by unfold touch; split <;> rfl

@[simp] theorem touch_threadsCount (s : workersPool) (m : BaseWorkRequest) :
    (s.touch m).threadsCount = s.threadsCount := by unfold touch; split <;> rfl

@[simp] theorem touch_activeWorkersCount (s : workersPool) (m : BaseWorkRequest) :
    (s.touch m).activeWorkersCount = s.activeWorkersCount := by unfold touch; split <;> rfl

@[simp] theorem touch_workDone (s : workersPool) (m : BaseWorkRequest) :
    (s.touch m).workDone = s.workDone := by unfold touch; split <;> rfl

@[simp] theorem touch_resultBell (s : workersPool) (m : BaseWorkRequest) :
    (s.touch m).resultBell = s.resultBell := by unfold touch; split <;> rfl


theorem set_self {β : Type} (l : List β) (i : Nat) (w : β) (h : l[i]? = some w) :
    l.set i w = l := by
  induction l generalizing i with
  | nil => rfl
  | cons a l ih =>
    cases i with
    | zero => simp at h; simp [h]
    | succ i => simp at h; simp [ih i h]

theorem workProcessingLoop_workers (s : workersPool) (i : Nat) (w : Worker)
    (hw : s.workers[i]? = some w) :
    (s.workProcessingLoop i w).workers = s.workers.set i (s.nextWorker w) := by
  obtain ⟨pc, flag⟩ := w
  cases pc
  case receive =>
    simp only [workProcessingLoop, nextWorker]
    cases hr : postbox.receive s.poolWorkBox with
    | none => simp [set_self _ _ _ hw]
    | some r =>
      obtain ⟨m, q1⟩ := r
      cases m <;> simp [setWorker]
  case exited => simp [workProcessingLoop, nextWorker, set_self _ _ _ hw]
  all_goals
    (simp only [workProcessingLoop, nextWorker, setWorker]; try split) <;> simp

theorem workProcessingLoop_frame (s : workersPool) (i : Nat) (w : Worker) :
    (s.workProcessingLoop i w).sent = s.sent ∧ (s.workProcessingLoop i w).threads = s.threads ∧
    (s.workProcessingLoop i w).ctl = s.ctl ∧ (s.workProcessingLoop i w).isRunning = s.isRunning ∧
    (s.workProcessingLoop i w).threadsCount = s.threadsCount ∧
    (s.workProcessingLoop i w).resultBell = s.resultBell := by
  obtain ⟨pc, flag⟩ := w
  cases pc
  case receive =>
    simp only [workProcessingLoop]
    cases hr : postbox.receive s.poolWorkBox with
    | none => simp
    | some r =>
      obtain ⟨m, q1⟩ := r
      cases m <;> simp [setWorker]
  all_goals
    (simp only [workProcessingLoop, setWorker]; try split) <;> simp

theorem workProcessingLoop_flow (s : workersPool) (i : Nat) (w : Worker)
    (h : w.pc ≠ WorkerPc.receive) :
    (s.workProcessingLoop i w).received = s.received ∧
    (s.workProcessingLoop i w).poolWorkBox = s.poolWorkBox := by
  obtain ⟨pc, flag⟩ := w
  cases pc
  case receive => exact absurd rfl h
  all_goals
    (simp only [workProcessingLoop, setWorker]; try split) <;> simp

theorem workProcessingLoop_receive (s : workersPool) (i : Nat) (w : Worker)
    (h : w.pc = WorkerPc.receive) :
    (postbox.receive s.poolWorkBox = none ∧ s.workProcessingLoop i w = s) ∨
    ∃ m q1, postbox.receive s.poolWorkBox = some (m, q1) ∧
      (s.workProcessingLoop i w).received = s.received ++ [m] ∧
      (s.workProcessingLoop i w).poolWorkBox = q1 ∧
      s.nextWorker w = (match m with
        | some r => { w with pc := WorkerPc.count r }
        | none => { pc := WorkerPc.chkActive, isNotTermMessage := false }) := by
  obtain ⟨pc, flag⟩ := w
  simp only at h
  subst h
  simp only [workProcessingLoop, nextWorker]
  cases hr : postbox.receive s.poolWorkBox with
  | none => simp
  | some r =>
    obtain ⟨m, q1⟩ := r
    right
    refine ⟨m, q1, rfl, ?_⟩
    cases m <;> simp [setWorker]

theorem workProcessingLoop_called (s : workersPool) (i : Nat) (w : Worker) :
    (∀ x ∈ s.called, x ∈ (s.workProcessingLoop i w).called) ∧
    (∀ m, w.pc = WorkerPc.call m → m.id ∈ (s.workProcessingLoop i w).called) := by
  obtain ⟨pc, flag⟩ := w
  cases pc
  case receive =>
    simp only [workProcessingLoop]
    cases hr : postbox.receive s.poolWorkBox with
    | none => simp
    | some r =>
      obtain ⟨m, q1⟩ := r
      cases m <;> simp [setWorker]
  all_goals
    (simp only [workProcessingLoop, setWorker]; try split) <;> simp
  all_goals
    intro x hx
    exact Or.inl hx

/-- A change of worker `i` from `w` to `w1` that keeps the message flow invariant. -/
theorem invF_update (s s1 : workersPool) (i : Nat) (w w1 : Worker)
    (hw : s.workers[i]? = some w) (hws : s1.workers = s.workers.set i w1)
    (hfifo : s1.sent = s1.received ++ s1.poolWorkBox.reverse)
    (hrecv : ∀ x ∈ s.received, x ∈ s1.received)
    (hcalled : ∀ x ∈ s.called, x ∈ s1.called)
    (hflag : w1.isNotTermMessage = false → w.isNotTermMessage = false ∨ none ∈ s1.received)
    (hex : w1.pc = WorkerPc.exited → w1.isNotTermMessage = false)
    (hold : ∀ m, (w.pc = WorkerPc.count m ∨ w.pc = WorkerPc.call m) →
      (w1.pc = WorkerPc.count m ∨ w1.pc = WorkerPc.call m) ∨ m.id ∈ s1.called)
    (hnew : ∀ m, some m ∈ s1.received → some m ∈ s.received ∨
      (w1.pc = WorkerPc.count m ∨ w1.pc = WorkerPc.call m))
    (H : InvF s) : InvF s1 := by
  have hi : i < s.workers.length := by
    by_contra hc
    rw [List.getElem?_eq_none (by omega)] at hw
    cases hw
  have hi1 : (s.workers.set i w1)[i]? = some w1 := by simp [hi]
  constructor
  · exact hfifo
  · intro t x ht hx
    rw [hws] at ht
    rcases getElem?_set_some _ _ _ _ _ ht with ⟨rfl, rfl, _⟩ | ⟨_, hold⟩
    · exact hex hx
    · exact H.exitedTerm _ _ hold hx
  · intro t x ht hx
    rw [hws] at ht
    rcases getElem?_set_some _ _ _ _ _ ht with ⟨rfl, rfl, _⟩ | ⟨_, hold⟩
    · rcases hflag hx with h1 | h1
      · exact hrecv _ (H.termRecv _ _ hw h1)
      · exact h1
    · exact hrecv _ (H.termRecv _ _ hold hx)
  · intro m hm
    rcases hnew m hm with hm1 | hm1
    · rcases H.held m hm1 with h1 | ⟨t, x, ht, hx⟩
      · exact Or.inl (hcalled _ h1)
      · by_cases hti : t = i
        · subst hti
          rw [hw] at ht
          cases ht
          rcases hold m hx with h2 | h2
          · exact Or.inr ⟨t, w1, by rw [hws]; exact hi1, h2⟩
          · exact Or.inl h2
        · right
          refine ⟨t, x, ?_, hx⟩
          rw [hws, List.getElem?_set]
          simp [Ne.symm hti, ht]
    · exact Or.inr ⟨i, w1, by rw [hws]; exact hi1, hm1⟩

theorem nextWorker_local (s : workersPool) (w : Worker) (h : w.pc ≠ WorkerPc.receive) :
    (s.nextWorker w).isNotTermMessage = w.isNotTermMessage ∧
    ((s.nextWorker w).pc = WorkerPc.exited →
      w.pc = WorkerPc.exited ∨ w.isNotTermMessage = false) ∧
    (∀ m, (s.nextWorker w).pc = WorkerPc.count m → w.pc = WorkerPc.count m) ∧
    (∀ m, (s.nextWorker w).pc = WorkerPc.call m → w.pc = WorkerPc.count m) ∧
    (∀ m, w.pc = WorkerPc.count m → (s.nextWorker w).pc = WorkerPc.call m) := by
  obtain ⟨pc, flag⟩ := w
  cases pc
  case receive => exact absurd rfl h
  all_goals
    (simp only [nextWorker]; try split) <;> simp_all

theorem invF_workProcessingLoop (s : workersPool) (i : Nat) (w : Worker)
    (hw : s.workers[i]? = some w) (H : InvF s) : InvF (s.workProcessingLoop i w) := by
  by_cases hpc : w.pc = WorkerPc.receive
  · rcases workProcessingLoop_receive s i w hpc with ⟨_, h⟩ | ⟨m, q1, hr, h1, h2, h3⟩
    · rw [h]; exact H
    · have hq := receive_some _ _ _ hr
      refine invF_update s _ i w (s.nextWorker w) hw (workProcessingLoop_workers s i w hw) ?_ ?_
        (workProcessingLoop_called s i w).1 ?_ ?_ ?_ ?_ H
      · rw [(workProcessingLoop_frame s i w).1, h1, h2, H.fifo, hq]; simp
      · intro x hx; rw [h1]; simp [hx]
      · rw [h3, h1]
        cases m
        · simp
        · intro h; exact Or.inl h
      · rw [h3]; cases m <;> simp
      · intro m1 hm1
        rw [hpc] at hm1
        simp at hm1
      · intro m1 hm1
        rw [h1] at hm1
        rw [h3]
        simp only [List.mem_append, List.mem_singleton] at hm1
        rcases hm1 with hm1 | hm1
        · exact Or.inl hm1
        · subst hm1; simp
  · obtain ⟨l1, l2, l3, l4, l5⟩ := nextWorker_local s w hpc
    obtain ⟨f1, f2⟩ := workProcessingLoop_flow s i w hpc
    refine invF_update s _ i w (s.nextWorker w) hw (workProcessingLoop_workers s i w hw) ?_ ?_
      (workProcessingLoop_called s i w).1 ?_ ?_ ?_ ?_ H
    · rw [(workProcessingLoop_frame s i w).1, f1, f2]; exact H.fifo
    · intro x hx; rw [f1]; exact hx
    · intro h; rw [l1] at h; exact Or.inl h
    · intro h
      rw [l1]
      rcases l2 h with h1 | h1
      · exact H.exitedTerm _ _ hw h1
      · exact h1
    · intro m hm
      rcases hm with hm | hm
      · exact Or.inl (Or.inr (l5 m hm))
      · exact Or.inr ((workProcessingLoop_called s i w).2 m hm)
    · intro m hm
      rw [f1] at hm
      exact Or.inl hm


theorem ctlStep_flow (s : workersPool) :
    s.ctlStep.received = s.received ∧ s.ctlStep.called = s.called ∧
    ((s.ctlStep.sent = s.sent ∧ s.ctlStep.poolWorkBox = s.poolWorkBox) ∨
      (s.ctlStep.sent = s.sent ++ [none] ∧ s.ctlStep.poolWorkBox = none :: s.poolWorkBox)) ∧
    (s.ctlStep.workers = s.workers ∨
      s.ctlStep.workers = s.workers ++ [{ pc := WorkerPc.loopTest, isNotTermMessage := true }]) := by
  cases hc : s.ctl <;> simp only [ctlStep, runThreads, joinThreads, hc]
  all_goals (repeat' split)
  all_goals simp [sendWork, postbox.send]

theorem getElem?_append_one {β : Type} (l : List β) (a x : β) (t : Nat)
    (h : (l ++ [a])[t]? = some x) : l[t]? = some x ∨ (t = l.length ∧ x = a) := by
  by_cases ht : t < l.length
  · left
    rwa [List.getElem?_append_left ht] at h
  · right
    rw [List.getElem?_append_right (by omega)] at h
    have h0 : t - l.length = 0 := by
      by_contra hc
      have : ([a] : List β)[t - l.length]? = none := by
        apply List.getElem?_eq_none
        simp
        omega
      rw [this] at h
      cases h
    rw [h0] at h
    simp at h
    exact ⟨by omega, h.symm⟩

theorem getElem?_append_some {β : Type} (l l1 : List β) (x : β) (t : Nat)
    (h : l[t]? = some x) : (l ++ l1)[t]? = some x := by
  have ht : t < l.length := by
    by_contra hc
    rw [List.getElem?_eq_none (by omega)] at h
    cases h
  rw [List.getElem?_append_left ht]
  exact h

/-- A turn that leaves the workers alone, or starts a new one, keeps the message flow
invariant as long as the queue discipline is kept. -/
theorem invF_frame (s s1 : workersPool)
    (hrecv : s1.received = s.received) (hcalled : s1.called = s.called)
    (hfifo : s1.sent = s1.received ++ s1.poolWorkBox.reverse)
    (hws : s1.workers = s.workers ∨
      s1.workers = s.workers ++ [{ pc := WorkerPc.loopTest, isNotTermMessage := true }])
    (H : InvF s) : InvF s1 := by
  constructor
  · exact hfifo
  · intro t x ht hx
    rcases hws with hws | hws
    · rw [hws] at ht; exact H.exitedTerm _ _ ht hx
    · rw [hws] at ht
      rcases getElem?_append_one _ _ _ _ ht with h1 | ⟨_, h1⟩
      · exact H.exitedTerm _ _ h1 hx
      · subst h1; cases hx
  · intro t x ht hx
    rw [hrecv]
    rcases hws with hws | hws
    · rw [hws] at ht; exact H.termRecv _ _ ht hx
    · rw [hws] at ht
      rcases getElem?_append_one _ _ _ _ ht with h1 | ⟨_, h1⟩
      · exact H.termRecv _ _ h1 hx
      · subst h1; cases hx
  · intro m hm
    rw [hrecv] at hm
    rw [hcalled]
    rcases H.held m hm with h1 | ⟨t, x, ht, hx⟩
    · exact Or.inl h1
    · right
      refine ⟨t, x, ?_, hx⟩
      rcases hws with hws | hws
      · rw [hws]; exact ht
      · rw [hws]; exact getElem?_append_some _ _ _ _ ht

theorem invF_step (s : workersPool) (e : Event) (H : InvF s) : InvF (s.step e) := by
  cases e with
  | sendWork m =>
    refine invF_frame s _ rfl rfl ?_ (Or.inl rfl) H
    simp [step, sendWork, postbox.send, H.fifo]
  | runThreads n =>
    simp only [step]
    split
    · exact invF_frame s _ rfl rfl H.fifo (Or.inl rfl) H
    · exact H
  | joinThreads =>
    simp only [step]
    split
    · exact invF_frame s _ rfl rfl H.fifo (Or.inl rfl) H
    · exact H
  | main =>
    obtain ⟨h1, h2, h3, h4⟩ := ctlStep_flow s
    refine invF_frame s _ h1 h2 ?_ h4 H
    show s.ctlStep.sent = s.ctlStep.received ++ s.ctlStep.poolWorkBox.reverse
    rcases h3 with ⟨h5, h6⟩ | ⟨h5, h6⟩
    · rw [h5, h6, h1]; exact H.fifo
    · rw [h5, h6, h1, H.fifo]; simp
  | work i =>
    simp only [step]
    cases hw : s.workers[i]? with
    | none => exact H
    | some w => exact invF_workProcessingLoop s i w hw H
  | await m =>
    simp only [step]
    split
    · exact invF_frame s _ rfl rfl H.fifo (Or.inl rfl) H
    · exact H
  | release m =>
    simp only [step]
    split
    · exact invF_frame s _ rfl rfl H.fifo (Or.inl rfl) H
    · exact H

theorem invF_fresh (b : Bool) : InvF (fresh b) := by
  constructor <;> simp [fresh]

theorem invF_run (es : List Event) (s : workersPool) (H : InvF s) : InvF (s.run es) := by
  induction es generalizing s with
  | nil => exact H
  | cons e es ih => exact ih (s.step e) (invF_step s e H)


theorem ctlStep_noJoin (s : workersPool) (h : NoJoin s) :
    NoJoin s.ctlStep ∧ s.ctlStep.sent = s.sent := by
  unfold NoJoin at h
  cases hc : s.ctl <;> rw [hc] at h <;> simp only at h <;>
    simp only [ctlStep, runThreads, joinThreads, hc]
  all_goals (repeat' split)
  all_goals simp_all [NoJoin]

theorem step_noJoin (s : workersPool) (e : Event) (h : NoJoin s) (he : beforeJoin e = true) :
    NoJoin (s.step e) ∧ (s.step e).sent = s.sent ++ submitted [e] := by
  cases e with
  | sendWork m =>
    cases m with
    | none => simp [beforeJoin] at he
    | some m => exact ⟨by simpa [step, sendWork, NoJoin] using h, by simp [step, sendWork, submitted]⟩
  | runThreads n => simp [beforeJoin] at he
  | joinThreads => simp [beforeJoin] at he
  | main =>
    have := ctlStep_noJoin s h
    simpa [step, submitted] using this
  | work i =>
    simp only [step]
    cases hw : s.workers[i]? with
    | none => exact ⟨h, by simp [submitted]⟩
    | some w =>
      obtain ⟨f1, f2, f3, f4, f5, f6⟩ := workProcessingLoop_frame s i w
      refine ⟨?_, by simp [submitted, f1]⟩
      unfold NoJoin at h ⊢
      rw [f3, f4]
      exact h
  | await m =>
    simp only [step]
    split
    · exact ⟨by simpa [NoJoin] using h, by simp [submitted]⟩
    · exact ⟨h, by simp [submitted]⟩
  | release m =>
    simp only [step]
    split
    · exact ⟨by simpa [NoJoin] using h, by simp [submitted]⟩
    · exact ⟨h, by simp [submitted]⟩

theorem submitted_cons (e : Event) (es : List Event) :
    submitted (e :: es) = submitted [e] ++ submitted es := by
  cases e <;> simp [submitted]

theorem submitted_some (es : List Event) (h : ∀ e ∈ es, beforeJoin e = true) :
    ∀ x ∈ submitted es, x ≠ none := by
  induction es with
  | nil => simp [submitted]
  | cons e es ih =>
    intro x hx
    rw [submitted_cons] at hx
    rcases List.mem_append.mp hx with h1 | h1
    · have he := h e (List.mem_cons_self _ _)
      cases e with
      | sendWork m =>
        cases m with
        | none => simp [beforeJoin] at he
        | some m => simp [submitted] at h1; simp [h1]
      | _ => simp [submitted] at h1
    · exact ih (fun e he => h e (List.mem_cons_of_mem _ he)) x h1

theorem run_noJoin (es : List Event) (s : workersPool) (h : NoJoin s)
    (hes : ∀ e ∈ es, beforeJoin e = true) :
    (s.run es).sent = s.sent ++ submitted es := by
  induction es generalizing s with
  | nil => simp [run, submitted]
  | cons e es ih =>
    obtain ⟨h1, h2⟩ := step_noJoin s e h (hes e (List.mem_cons_self _ _))
    have := ih (s.step e) h1 (fun e he => hes e (List.mem_cons_of_mem _ he))
    simp only [run, List.foldl_cons] at this ⊢
    rw [this, h2, submitted_cons e es, List.append_assoc]

theorem step_sent (s : workersPool) (e : Event) :
    ∃ l, (s.step e).sent = s.sent ++ l ∧ (noSend e = true → ∃ k, l = List.replicate k none) := by
  cases e with
  | sendWork m => exact ⟨[m], by simp [step, sendWork], by simp [noSend]⟩
  | runThreads n =>
    refine ⟨[], ?_, fun _ => ⟨0, rfl⟩⟩
    simp only [step]; split <;> simp
  | joinThreads =>
    refine ⟨[], ?_, fun _ => ⟨0, rfl⟩⟩
    simp only [step]; split <;> simp
  | main =>
    obtain ⟨_, _, h3, _⟩ := ctlStep_flow s
    rcases h3 with ⟨h5, _⟩ | ⟨h5, _⟩
    · exact ⟨[], by simpa [step] using h5, fun _ => ⟨0, rfl⟩⟩
    · exact ⟨[none], by simpa [step] using h5, fun _ => ⟨1, rfl⟩⟩
  | work i =>
    refine ⟨[], ?_, fun _ => ⟨0, rfl⟩⟩
    simp only [step]
    cases hw : s.workers[i]? with
    | none => simp
    | some w => simp [(workProcessingLoop_frame s i w).1]
  | await m =>
    refine ⟨[], ?_, fun _ => ⟨0, rfl⟩⟩
    simp only [step]; split <;> simp
  | release m =>
    refine ⟨[], ?_, fun _ => ⟨0, rfl⟩⟩
    simp only [step]; split <;> simp

theorem run_sent (es : List Event) (s : workersPool) :
    ∃ l, (s.run es).sent = s.sent ++ l ∧
      ((∀ e ∈ es, noSend e = true) → ∃ k, l = List.replicate k none) := by
  induction es generalizing s with
  | nil => exact ⟨[], by simp [run], fun _ => ⟨0, rfl⟩⟩
  | cons e es ih =>
    obtain ⟨l1, h1, h2⟩ := step_sent s e
    obtain ⟨l2, h3, h4⟩ := ih (s.step e)
    refine ⟨l1 ++ l2, ?_, ?_⟩
    · simp only [run, List.foldl_cons] at h3 ⊢
      rw [h3, h1, List.append_assoc]
    · intro hes
      obtain ⟨k1, hk1⟩ := h2 (hes e (List.mem_cons_self _ _))
      obtain ⟨k2, hk2⟩ := h4 (fun e he => hes e (List.mem_cons_of_mem _ he))
      exact ⟨k1 + k2, by rw [hk1, hk2, List.replicate_add]⟩

theorem run_append (s : workersPool) (es fs : List Event) :
    s.run (es ++ fs) = (s.run es).run fs := by
  simp [run, List.foldl_append]

/-- Items ahead of the first null pointer have all left the queue once a null pointer
has. -/
theorem items_received (r q a b : List (Option BaseWorkRequest))
    (h : r ++ q = a ++ b) (hn : none ∈ r) (ha : ∀ x ∈ a, x ≠ none) : a <+: r := by
  rcases List.append_eq_append_iff.mp h with ⟨c, h1, _⟩ | ⟨c, h1, _⟩
  · exfalso
    have : none ∈ a := by rw [h1]; exact List.mem_append_left _ hn
    exact ha none this rfl
  · exact ⟨c, h1.symm⟩


/-- C4, counterexample. Two workers, one fire-and-forget request submitted before
`joinThreads()`: worker 0 has dequeued the request but not yet run it when worker 1
dequeues a terminate message and leaves its loop, so a worker has exited while a
submitted request is not executed. -/
theorem worker_exits_before_item_executed :
    (∀ e ∈ racePre, beforeJoin e = true) ∧
    submitted racePre = [some ⟨0, false⟩] ∧
    (shutdownRun false 2 racePre racePost).workers[1]?
      = some ⟨WorkerPc.exited, false⟩ ∧
    (shutdownRun false 2 racePre racePost).workers[0]?
      = some ⟨WorkerPc.count ⟨0, false⟩, true⟩ ∧
    0 ∉ (shutdownRun false 2 racePre racePost).called := by
  decide

/-- C4, amended. Shutdown order: a fresh pool is started with `runThreads(n)`, requests
are submitted, then `joinThreads()` is called; the workers take their turns in any order.
Every message sent after the call, so every terminate message, is queued behind the
submitted requests. A worker that has left its loop has dequeued a terminate message, and
by then every submitted request has been dequeued, in submission order; a request
dequeued by another worker may still be waiting to run. Once all workers have left their
loops every submitted request has been executed. -/
theorem shutdown_order (b : Bool) (n : Int) (pre post : List Event)
    (hpre : ∀ e ∈ pre, beforeJoin e = true) :
    (∃ rest, (shutdownRun b n pre post).sent = submitted pre ++ rest ∧
      ((∀ e ∈ post, noSend e = true) → ∃ k, rest = List.replicate k none)) ∧
    ∀ (t : Nat) (w : Worker), (shutdownRun b n pre post).workers[t]? = some w →
      w.pc = WorkerPc.exited →
      w.isNotTermMessage = false ∧ none ∈ (shutdownRun b n pre post).received ∧
      submitted pre <+: (shutdownRun b n pre post).received ∧
      (Quiet (shutdownRun b n pre post) →
        ∀ m, some m ∈ submitted pre → m.id ∈ (shutdownRun b n pre post).called) := by
  have hsplit : shutdownRun b n pre post
      = ((((fresh b).step (Event.runThreads n)).run pre).run (Event.joinThreads :: post)) := by
    unfold shutdownRun
    rw [← run_append]
    rfl
  have h0 : NoJoin ((fresh b).step (Event.runThreads n)) := by
    simp [step, fresh, NoJoin]
  have h1 := run_noJoin pre _ h0 hpre
  have h1a : (((fresh b).step (Event.runThreads n)).run pre).sent = submitted pre := by
    rw [h1]; simp [step, fresh]
  obtain ⟨rest, h2, h3⟩ := run_sent (Event.joinThreads :: post)
    (((fresh b).step (Event.runThreads n)).run pre)
  have hsent : (shutdownRun b n pre post).sent = submitted pre ++ rest := by
    rw [hsplit, h2, h1a]
  have hI : InvF (shutdownRun b n pre post) := invF_run _ _ (invF_fresh b)
  refine ⟨⟨rest, hsent, ?_⟩, ?_⟩
  · intro hpost
    apply h3
    intro e he
    rcases List.mem_cons.mp he with rfl | he
    · rfl
    · exact hpost e he
  · intro t w ht hx
    have hflag := hI.exitedTerm t w ht hx
    have hnone := hI.termRecv t w ht hflag
    have hfifo := hI.fifo
    rw [hsent] at hfifo
    have hpfx := items_received _ _ _ _ hfifo.symm hnone (submitted_some pre hpre)
    refine ⟨hflag, hnone, hpfx, ?_⟩
    intro hq m hm
    obtain ⟨c, hc⟩ := hpfx
    have hm1 : some m ∈ (shutdownRun b n pre post).received := by
      rw [← hc]; exact List.mem_append_left _ hm
    rcases hI.held m hm1 with h4 | ⟨t1, w1, ht1, hw1⟩
    · exact h4
    · have := hq t1 w1 ht1
      rw [this] at hw1
      rcases hw1 with hw1 | hw1 <;> cases hw1

theorem shutdown_order_witness :
    (∀ e ∈ racePre, beforeJoin e = true) ∧
    ∀ (t : Nat) (w : Worker), (shutdownRun false 2 racePre racePost).workers[t]? = some w →
      w.pc = WorkerPc.exited →
      w.isNotTermMessage = false ∧ none ∈ (shutdownRun false 2 racePre racePost).received ∧
      submitted racePre <+: (shutdownRun false 2 racePre racePost).received ∧
      (Quiet (shutdownRun false 2 racePre racePost) →
        ∀ m, some m ∈ submitted racePre →
          m.id ∈ (shutdownRun false 2 racePre racePost).called) :=
  ⟨by decide, (shutdown_order false 2 racePre racePost (by decide)).2⟩


theorem workProcessingLoop_active (s : workersPool) (i : Nat) (w : Worker) :
    (∀ m, w.pc = WorkerPc.count m →
      (s.workProcessingLoop i w).activeWorkersCount = wrap32 (s.activeWorkersCount + 1)) ∧
    (w.pc = WorkerPc.uncount →
      (s.workProcessingLoop i w).activeWorkersCount = wrap32 (s.activeWorkersCount - 1)) ∧
    ((∀ m, w.pc ≠ WorkerPc.count m) → w.pc ≠ WorkerPc.uncount →
      (s.workProcessingLoop i w).activeWorkersCount = s.activeWorkersCount) := by
  obtain ⟨pc, flag⟩ := w
  cases pc
  case receive =>
    simp only [workProcessingLoop]
    cases hr : postbox.receive s.poolWorkBox with
    | none => simp
    | some r =>
      obtain ⟨m, q1⟩ := r
      cases m <;> simp [setWorker]
  all_goals
    (simp only [workProcessingLoop, setWorker]; try split) <;> simp

theorem nextWorker_between (s : workersPool) (w : Worker) :
    (∀ m, w.pc = WorkerPc.count m →
      between (s.nextWorker w) = true ∧ between w = false ∧ live (s.nextWorker w) = true) ∧
    (w.pc = WorkerPc.uncount →
      between (s.nextWorker w) = false ∧ between w = true ∧ live (s.nextWorker w) = true) ∧
    ((∀ m, w.pc ≠ WorkerPc.count m) → w.pc ≠ WorkerPc.uncount →
      between (s.nextWorker w) = between w) ∧
    (live (s.nextWorker w) = true → live w = true) := by
  obtain ⟨pc, flag⟩ := w
  cases pc
  all_goals
    (simp only [nextWorker]; try split) <;> simp [between, live]

theorem countP_between_le_live (l : List Worker) : l.countP between ≤ l.countP live := by
  apply List.countP_mono_left
  intro w _ hb
  unfold between at hb
  unfold live
  split at hb <;> simp_all

@[simp] theorem live_iff (w : Worker) : live w = true ↔ w.pc ≠ WorkerPc.exited := by
  simp [live]

theorem cover_update (s s1 : workersPool) (i : Nat) (w w1 : Worker)
    (hw : s.workers[i]? = some w) (hws : s1.workers = s.workers.set i w1)
    (hth : s1.threads = s.threads) (hlive : live w1 = true → live w = true) :
    (∀ j, Cover s j → Cover s1 j) ∧ (∀ j, CoverBelow s j → CoverBelow s1 j) ∧
    (Quiet s → Quiet s1) := by
  have key : ∀ (t : Nat) (x : Worker), s1.workers[t]? = some x → x.pc ≠ WorkerPc.exited →
      ∃ y, s.workers[t]? = some y ∧ y.pc ≠ WorkerPc.exited := by
    intro t x ht hx
    rw [hws] at ht
    rcases getElem?_set_some _ _ _ _ _ ht with ⟨rfl, rfl, _⟩ | ⟨_, hold⟩
    · exact ⟨w, hw, (live_iff w).mp (hlive ((live_iff _).mpr hx))⟩
    · exact ⟨x, hold, hx⟩
  refine ⟨?_, ?_, ?_⟩
  · intro j hc t x ht hx
    obtain ⟨y, hy, hy1⟩ := key t x ht hx
    rw [hth]
    exact hc t y hy hy1
  · intro j hc t x ht hx
    obtain ⟨y, hy, hy1⟩ := key t x ht hx
    rw [hth]
    exact hc t y hy hy1
  · intro hq t x ht
    by_contra hx
    obtain ⟨y, hy, hy1⟩ := key t x ht hx
    exact hy1 (hq t y hy)

theorem wrap32_id (x : Int) (h0 : -2147483648 ≤ x) (h1 : x < 2147483648) : wrap32 x = x := by
  unfold wrap32
  omega

theorem invC_workProcessingLoop (s : workersPool) (i : Nat) (w : Worker)
    (hw : s.workers[i]? = some w) (H : InvC s) : InvC (s.workProcessingLoop i w) := by
  obtain ⟨f1, f2, f3, f4, f5, f6⟩ := workProcessingLoop_frame s i w
  have hws := workProcessingLoop_workers s i w hw
  obtain ⟨a1, a2, a3⟩ := workProcessingLoop_active s i w
  obtain ⟨b1, b2, b3, b4⟩ := nextWorker_between s w
  have hb := countP_set_add between s.workers i w (s.nextWorker w) hw
  have hl := countP_set_add live s.workers i w (s.nextWorker w) hw
  have hbl := countP_between_le_live (s.workers.set i (s.nextWorker w))
  have hact := H.active
  have hll := H.liveLe
  have hlt := H.countLt
  obtain ⟨c1, c2, c3⟩ := cover_update s (s.workProcessingLoop i w) i w (s.nextWorker w) hw hws f2 b4
  have hlive : (s.workers.set i (s.nextWorker w)).countP live ≤ s.workers.countP live := by
    by_cases h1 : live (s.nextWorker w) = true
    · have h2 := b4 h1
      simp only [h1, h2, if_true] at hl
      omega
    · simp only [h1] at hl
      split at hl <;> simp at hl <;> omega
  refine ⟨?_, ?_, ?_, ?_, ?_⟩
  · rw [hws]
    by_cases hc : ∃ m, w.pc = WorkerPc.count m
    · obtain ⟨m, hm⟩ := hc
      obtain ⟨h1, h2, h3⟩ := b1 m hm
      rw [a1 m hm]
      simp only [h1, h2, if_true] at hb
      simp at hb
      rw [wrap32_id] <;> omega
    · by_cases hu : w.pc = WorkerPc.uncount
      · obtain ⟨h1, h2, h3⟩ := b2 hu
        rw [a2 hu]
        simp only [h1, h2, if_true] at hb
        simp at hb
        rw [wrap32_id] <;> omega
      · have hc1 : ∀ m, w.pc ≠ WorkerPc.count m := fun m hm => hc ⟨m, hm⟩
        rw [a3 hc1 hu]
        have := b3 hc1 hu
        rw [this] at hb
        omega
  · rw [hws, f5]; omega
  · rw [f5]; exact hlt
  · rw [f2, f5]; exact H.lenLe
  · have hctl := H.ctl
    unfold CtlInv at hctl ⊢
    rw [f3]
    rw [hws, f2, f4, f5]
    generalize s.ctl = c at hctl ⊢
    cases c <;> simp only at hctl ⊢
    case idle => exact ⟨c1 0 hctl.1, hctl.2⟩
    case runTest n => exact ⟨c1 0 hctl.1, hctl.2⟩
    case runCount n => exact ⟨c3 hctl.1, hctl.2⟩
    case runFlag n => exact ⟨c3 hctl.1, hctl.2⟩
    case runResize n => exact ⟨c3 hctl.1, hctl.2⟩
    case runSpawn j n =>
      obtain ⟨h1, h2, h3, h4, h5, h6⟩ := hctl
      exact ⟨c2 j h1, h2, h3, h4, by omega, h6⟩
    case joinFlag ret => exact ⟨c1 0 hctl.1, hctl.2⟩
    case joinSend j ret => exact ⟨c1 0 hctl.1, hctl.2⟩
    case joinWait j ret => exact ⟨c1 j hctl.1, hctl.2⟩
    case joinDel j ret => exact ⟨c3 hctl.1, hctl.2⟩
    case joinClear ret => exact ⟨c3 hctl.1, hctl.2⟩

theorem quiet_countP (s : workersPool) (h : Quiet s) : s.workers.countP live = 0 := by
  rw [List.countP_eq_zero]
  intro w hw
  obtain ⟨t, ht, hwt⟩ := List.getElem_of_mem hw
  have : s.workers[t]? = some w := by rw [List.getElem?_eq_getElem ht, hwt]
  simp [live, h t w this]

theorem quiet_of_cover_nil (s : workersPool) (i : Nat) (h : Cover s i) (hn : s.threads = []) :
    Quiet s := by
  intro t w ht
  by_contra hx
  obtain ⟨j, _, hj⟩ := h t w ht hx
  rw [hn] at hj
  simp at hj

theorem cover_of_quiet (s : workersPool) (i : Nat) (h : Quiet s) : Cover s i := by
  intro t w ht hx
  exact absurd (h t w ht) hx

theorem coverBelow_of_quiet (s : workersPool) (i : Nat) (h : Quiet s) : CoverBelow s i := by
  intro t w ht hx
  exact absurd (h t w ht) hx

theorem invC_ctlStep (s : workersPool) (H : InvC s) : InvC s.ctlStep := by
  have hctl := H.ctl
  unfold CtlInv at hctl
  have h0 : (0 : Int) ≤ s.threadsCount := by
    have := H.liveLe
    omega
  cases hc : s.ctl with
  | idle =>
    have : s.ctlStep = s := by simp [ctlStep, hc]
    rw [this]; exact H
  | crashed =>
    have : s.ctlStep = s := by simp [ctlStep, hc]
    rw [this]; exact H
  | runTest n =>
    rw [hc] at hctl
    obtain ⟨h1, h2, h3⟩ := hctl
    simp only [ctlStep, runThreads, joinThreads, hc]
    split
    · exact ⟨H.active, H.liveLe, H.countLt, H.lenLe, (⟨h1, h3⟩ : Cover s 0 ∧ okRet (some n))⟩
    · rename_i hr
      have hr1 : s.isRunning = false := by simpa using hr
      exact ⟨H.active, H.liveLe, H.countLt, H.lenLe,
        (⟨quiet_of_cover_nil s 0 h1 (h2 hr1), h2 hr1, h3⟩ : Quiet s ∧ s.threads = [] ∧ okCount n)⟩
  | runCount n =>
    rw [hc] at hctl
    obtain ⟨h1, h2, h3⟩ := hctl
    simp only [ctlStep, runThreads, joinThreads, hc]
    have hq := quiet_countP s h1
    refine ⟨H.active, ?_, h3.2, ?_, (⟨h1, h2, h3, rfl⟩ : Quiet s ∧ s.threads = [] ∧ okCount n ∧ n = n)⟩
    · show (s.workers.countP live : Int) ≤ n
      rw [hq]; exact h3.1
    · show (s.threads.length : Int) ≤ n
      rw [h2]; exact h3.1
  | runFlag n =>
    rw [hc] at hctl
    obtain ⟨h1, h2, h3, h4⟩ := hctl
    simp only [ctlStep, runThreads, joinThreads, hc]
    exact ⟨H.active, H.liveLe, H.countLt, H.lenLe,
      (⟨h1, h2, h3, h4, rfl⟩ : Quiet s ∧ s.threads = [] ∧ okCount n ∧ s.threadsCount = n ∧ true = true)⟩
  | runResize n =>
    rw [hc] at hctl
    obtain ⟨h1, h2, h3, h4, h5⟩ := hctl
    simp only [ctlStep, runThreads, joinThreads, hc]
    have hn : ¬ n < 0 := by have := h3.1; omega
    simp only [hn, if_false]
    have hlen : ((resize s.threads n.toNat).length : Int) = n := by
      simp [resize, h2]
      exact h3.1
    have hq := quiet_countP s h1
    refine ⟨H.active, H.liveLe, H.countLt, ?_, ?_⟩
    · show ((resize s.threads n.toNat).length : Int) ≤ s.threadsCount
      rw [hlen, h4]
    · show CoverBelow _ 0 ∧ s.threadsCount = n ∧ ((resize s.threads n.toNat).length : Int) = n ∧
        ((0 : Nat) : Int) ≤ n ∧ s.workers.countP live ≤ 0 ∧ s.isRunning = true
      refine ⟨?_, h4, hlen, by simpa using h3.1, by omega, h5⟩
      intro t w ht hx
      exact absurd (h1 t w ht) hx
  | runSpawn i n =>
    rw [hc] at hctl
    obtain ⟨h1, h2, h3, h4, h5, h6⟩ := hctl
    simp only [ctlStep, runThreads, joinThreads, hc]
    split
    · rename_i hin
      have hil : i < s.threads.length := by omega
      have hb : (s.workers ++ [({ pc := WorkerPc.loopTest, isNotTermMessage := true } : Worker)]).countP
          between = s.workers.countP between := by
        simp [List.countP_append, between]
      have hl : (s.workers ++ [({ pc := WorkerPc.loopTest, isNotTermMessage := true } : Worker)]).countP
          live = s.workers.countP live + 1 := by
        simp [List.countP_append, live]
      refine ⟨?_, ?_, H.countLt, ?_, ?_⟩
      · show s.activeWorkersCount = _
        rw [hb]; exact H.active
      · show ((_ : Nat) : Int) ≤ s.threadsCount
        rw [hl]; omega
      · show (((s.threads.set i (some s.workers.length)).length : Nat) : Int) ≤ s.threadsCount
        rw [List.length_set]; exact H.lenLe
      · show CoverBelow _ (i + 1) ∧ s.threadsCount = n ∧
          (((s.threads.set i (some s.workers.length)).length : Nat) : Int) = n ∧
          ((i + 1 : Nat) : Int) ≤ n ∧
          (s.workers ++ [({ pc := WorkerPc.loopTest, isNotTermMessage := true } : Worker)]).countP
            live ≤ i + 1 ∧ s.isRunning = true
        refine ⟨?_, h2, by rw [List.length_set]; exact h3, by omega, by rw [hl]; omega, h6⟩
        intro t w ht hx
        show ∃ j, j < i + 1 ∧ (s.threads.set i (some s.workers.length))[j]? = some (some t)
        have ht1 : (s.workers ++ [({ pc := WorkerPc.loopTest, isNotTermMessage := true } : Worker)])[t]?
            = some w := ht
        rcases getElem?_append_one _ _ _ _ ht1 with h7 | ⟨h7, _⟩
        · obtain ⟨j, hj, hj1⟩ := h1 t w h7 hx
          refine ⟨j, by omega, ?_⟩
          rw [List.getElem?_set]
          have : ¬ i = j := by omega
          simp [this, hj1]
        · refine ⟨i, by omega, ?_⟩
          rw [List.getElem?_set]
          simp [hil, h7]
    · refine ⟨H.active, H.liveLe, H.countLt, H.lenLe, ?_⟩
      show Cover s 0 ∧ (s.isRunning = false → s.threads = [])
      refine ⟨?_, fun h => by rw [h6] at h; cases h⟩
      intro t w ht hx
      obtain ⟨j, _, hj1⟩ := h1 t w ht hx
      exact ⟨j, Nat.zero_le _, hj1⟩
  | joinFlag ret =>
    rw [hc] at hctl
    simp only [ctlStep, runThreads, joinThreads, hc]
    exact ⟨H.active, H.liveLe, H.countLt, H.lenLe, (hctl : Cover s 0 ∧ okRet ret)⟩
  | joinSend i ret =>
    rw [hc] at hctl
    simp only [ctlStep, runThreads, joinThreads, hc]
    split
    · exact ⟨H.active, H.liveLe, H.countLt, H.lenLe, (hctl : Cover s 0 ∧ okRet ret)⟩
    · exact ⟨H.active, H.liveLe, H.countLt, H.lenLe, (hctl : Cover s 0 ∧ okRet ret)⟩
  | joinWait i ret =>
    rw [hc] at hctl
    obtain ⟨h1, h2⟩ := hctl
    simp only [ctlStep, runThreads, joinThreads, hc]
    split
    · split
      · rename_i t hti
        split
        · rename_i w hwt
          split
          · rename_i hex
            refine ⟨H.active, H.liveLe, H.countLt, H.lenLe, ?_⟩
            show Cover s (i + 1) ∧ okRet ret
            refine ⟨?_, h2⟩
            intro t1 w1 ht1 hx1
            obtain ⟨j, hj, hj1⟩ := h1 t1 w1 ht1 hx1
            by_cases hji : j = i
            · exfalso
              subst hji
              rw [hti] at hj1
              simp only [Option.some.injEq] at hj1
              subst hj1
              rw [hwt] at ht1
              cases ht1
              exact hx1 hex
            · exact ⟨j, by omega, hj1⟩
          · exact H
        · exact ⟨H.active, H.liveLe, H.countLt, H.lenLe, (trivial : True)⟩
      · exact ⟨H.active, H.liveLe, H.countLt, H.lenLe, (trivial : True)⟩
    · rename_i hin
      refine ⟨H.active, H.liveLe, H.countLt, H.lenLe, ?_⟩
      show Quiet s ∧ okRet ret
      refine ⟨?_, h2⟩
      intro t w ht
      by_contra hx
      obtain ⟨j, hj, hj1⟩ := h1 t w ht hx
      have hlen := H.lenLe
      have : s.threads[j]? = none := List.getElem?_eq_none (by omega)
      rw [this] at hj1
      cases hj1
  | joinDel i ret =>
    rw [hc] at hctl
    simp only [ctlStep, runThreads, joinThreads, hc]
    split
    · split
      · exact ⟨H.active, H.liveLe, H.countLt, H.lenLe, (hctl : Quiet s ∧ okRet ret)⟩
      · exact ⟨H.active, H.liveLe, H.countLt, H.lenLe, (trivial : True)⟩
    · exact ⟨H.active, H.liveLe, H.countLt, H.lenLe, (hctl : Quiet s ∧ okRet ret)⟩
  | joinClear ret =>
    rw [hc] at hctl
    obtain ⟨h1, h2⟩ := hctl
    simp only [ctlStep, runThreads, joinThreads, hc]
    refine ⟨H.active, H.liveLe, H.countLt, h0, ?_⟩
    cases ret with
    | none =>
      show Cover _ 0 ∧ (s.isRunning = false → ([] : List (Option Nat)) = [])
      refine ⟨?_, fun _ => rfl⟩
      intro t w ht hx
      exact absurd (h1 t w ht) hx
    | some n =>
      show Quiet _ ∧ ([] : List (Option Nat)) = [] ∧ okCount n
      exact ⟨h1, rfl, h2⟩

theorem invC_step (s : workersPool) (e : Event) (he : okEvent e = true) (H : InvC s) :
    InvC (s.step e) := by
  cases e with
  | sendWork m => exact ⟨H.active, H.liveLe, H.countLt, H.lenLe, H.ctl⟩
  | runThreads n =>
    simp only [step]
    split
    · rename_i hc
      have hctl := H.ctl
      unfold CtlInv at hctl
      rw [hc] at hctl
      have hn : okCount n := by simpa [okEvent, okCount] using he
      exact ⟨H.active, H.liveLe, H.countLt, H.lenLe,
        (⟨hctl.1, hctl.2, hn⟩ : Cover s 0 ∧ (s.isRunning = false → s.threads = []) ∧ okCount n)⟩
    · exact H
  | joinThreads =>
    simp only [step]
    split
    · rename_i hc
      have hctl := H.ctl
      unfold CtlInv at hctl
      rw [hc] at hctl
      exact ⟨H.active, H.liveLe, H.countLt, H.lenLe, (⟨hctl.1, trivial⟩ : Cover s 0 ∧ okRet none)⟩
    · exact H
  | main => exact invC_ctlStep s H
  | work i =>
    simp only [step]
    cases hw : s.workers[i]? with
    | none => exact H
    | some w => exact invC_workProcessingLoop s i w hw H
  | await m =>
    simp only [step]
    split
    · exact ⟨H.active, H.liveLe, H.countLt, H.lenLe, H.ctl⟩
    · exact H
  | release m =>
    simp only [step]
    split
    · exact ⟨H.active, H.liveLe, H.countLt, H.lenLe, H.ctl⟩
    · exact H

theorem invC_fresh (b : Bool) : InvC (fresh b) := by
  refine ⟨by simp [fresh], by simp [fresh], by simp [fresh], by simp [fresh], ?_⟩
  show Cover (fresh b) 0 ∧ ((fresh b).isRunning = false → (fresh b).threads = [])
  refine ⟨?_, fun _ => rfl⟩
  intro t w ht
  simp [fresh] at ht

theorem invC_run (es : List Event) (s : workersPool) (hes : ∀ e ∈ es, okEvent e = true)
    (H : InvC s) : InvC (s.run es) := by
  induction es generalizing s with
  | nil => exact H
  | cons e es ih =>
    exact ih (s.step e) (fun e1 h1 => hes e1 (List.mem_cons_of_mem _ h1))
      (invC_step s e (hes e (List.mem_cons_self _ _)) H)


/-- C8. Active worker counter: in every state reached from a fresh pool by calls of
`runThreads` with a non-negative `int` (so with any `n >= 1`), of `sendWork` and of
`joinThreads`, and by turns of the workers in any order, `activeWorkersCount` is the
number of workers between `activeWorkersCount++` and `activeWorkersCount--`, hence
`0 <= activeWorkersCount <= threadsCount`; a worker in `receive()`, one that has dequeued
a message but not yet incremented, and one handling a terminate message (it goes from
`receive` to the drained check) are not counted. -/
theorem active_workers_counter (b : Bool) (es : List Event)
    (hes : ∀ e ∈ es, okEvent e = true) :
    ((fresh b).run es).activeWorkersCount = (((fresh b).run es).workers.countP between : Int) ∧
    0 ≤ ((fresh b).run es).activeWorkersCount ∧
    ((fresh b).run es).activeWorkersCount ≤ ((fresh b).run es).threadsCount ∧
    (∀ w : Worker, between w = true ↔
      ((∃ m, w.pc = WorkerPc.call m ∨ w.pc = WorkerPc.bell m ∨ w.pc = WorkerPc.ring m ∨
        w.pc = WorkerPc.del m) ∨ w.pc = WorkerPc.uncount)) ∧
    (∀ (s : workersPool) (w : Worker), w.pc = WorkerPc.receive →
      postbox.receive s.poolWorkBox = some (none, postbox.pop_back s.poolWorkBox) →
      between (s.nextWorker w) = false) := by
  have H := invC_run es (fresh b) hes (invC_fresh b)
  have hbl := countP_between_le_live ((fresh b).run es).workers
  have h1 := H.active
  have h2 := H.liveLe
  refine ⟨h1, by omega, by omega, ?_, ?_⟩
  · intro w
    obtain ⟨pc, flag⟩ := w
    cases pc <;> simp [between]
  · intro s w hw hr
    obtain ⟨pc, flag⟩ := w
    simp only at hw
    subst hw
    simp [nextWorker, hr, between]

theorem active_workers_counter_witness :
    (∀ e ∈ twoBusy, okEvent e = true) ∧
    ((fresh true).run twoBusy).activeWorkersCount = 1 ∧
    ((fresh true).run twoBusy).threadsCount = 2 ∧
    ((fresh true).run twoBusy).activeWorkersCount
      = (((fresh true).run twoBusy).workers.countP between : Int) :=
  ⟨by decide, by decide, by decide, (active_workers_counter true twoBusy (by decide)).1⟩

/-- C3, counterexample. One worker, two requests, pool with notification: the worker
finishes request 1 before request 2 is submitted and sets `workDone`; after the second
submission `waitForWorkDone()` returns although request 2 is still queued and has not
run. -/
theorem workDone_set_before_all_items :
    ((fresh true).run earlyDone).workDone = true ∧
    ((fresh true).run earlyDone).waitForWorkDone = some ((fresh true).run earlyDone) ∧
    ((fresh true).run earlyDone).sent = [some ⟨1, false⟩, some ⟨2, false⟩] ∧
    ((fresh true).run earlyDone).poolWorkBox = [some ⟨2, false⟩] ∧
    2 ∉ ((fresh true).run earlyDone).called := by
  decide

/-- C9, failing run. The worker sets `workDone` of request 7, the submitter sees it, so
its `waitForWorkDone()` returns and it deletes the request; the worker's next access,
`resultBell-> notify_one()`, touches the deleted request, and the read of
`theWorkMessage-> resultBell` that follows does so again. -/
theorem worker_touches_item_after_completion :
    (((fresh false).run handOff.dropLast).done = [7] ∧
     ((fresh false).run handOff.dropLast).awaited = [7] ∧
     ((fresh false).run handOff.dropLast).freed = [7] ∧
     ((fresh false).run handOff.dropLast).stale = [] ∧
     ((fresh false).run handOff.dropLast).workers = [⟨WorkerPc.ring ⟨7, true⟩, true⟩]) ∧
    ((fresh false).run handOff).stale = [7] ∧
    ((fresh false).run (handOff ++ [Event.work 0])).stale = [7, 7] := by
  decide

/-- C10, failing run. After `runThreads(1); joinThreads();` the vector is empty but
`threadsCount` is still 1, so a second `joinThreads()` reaches `threads[0]->join()` with
index 0 out of range. -/
theorem second_join_out_of_range :
    (((fresh false).run runJoin).ctl = CtlPc.idle ∧
     ((fresh false).run runJoin).threads = [] ∧
     ((fresh false).run runJoin).threadsCount = 1) ∧
    (((fresh false).run (runJoin ++ joinAgain)).ctl = CtlPc.joinWait 0 none ∧
     ((fresh false).run (runJoin ++ joinAgain)).threads[0]? = none ∧
     ((fresh false).run (runJoin ++ joinAgain)).threads.length = 0 ∧
     ((fresh false).run (runJoin ++ joinAgain)).threadsCount = 1) ∧
    ((fresh false).run (runJoin ++ joinAgain ++ [Event.main])).ctl = CtlPc.crashed := by
  decide

/-- C7, counterexample. `runThreads(0)` on a fresh pool is not rejected: the call
returns with no worker started and the pool marked running. -/
theorem runThreads_zero_marks_running :
    ((fresh false).run (callRunThreads 0 5)).ctl = CtlPc.idle ∧
    ((fresh false).run (callRunThreads 0 5)).isRunning = true ∧
    ((fresh false).run (callRunThreads 0 5)).threadsCount = 0 ∧
    ((fresh false).run (callRunThreads 0 5)).workers = [] ∧
    ((fresh false).run (callRunThreads 0 5)).threads = [] := by
  decide

theorem workProcessingLoop_workDone (s : workersPool) (i : Nat) (w : Worker) :
    ((s.workProcessingLoop i w).workDone = true ↔ s.workDone = true ∨ w.pc = WorkerPc.setDone) := by
  obtain ⟨pc, flag⟩ := w
  cases pc
  case receive =>
    simp only [workProcessingLoop]
    cases hr : postbox.receive s.poolWorkBox with
    | none => simp
    | some r =>
      obtain ⟨m, q1⟩ := r
      cases m <;> simp [setWorker]
  all_goals
    (simp only [workProcessingLoop, setWorker]; try split) <;> simp

theorem ctlStep_workDone (s : workersPool) : s.ctlStep.workDone = s.workDone := by
  cases hc : s.ctl <;> simp only [ctlStep, runThreads, joinThreads, hc]
  all_goals (repeat' split)
  all_goals simp [sendWork]

theorem nextWorker_check (s : workersPool) (w : Worker) :
    ((s.nextWorker w).pc = WorkerPc.setDone →
      w.pc = WorkerPc.chkCount ∧ postbox.messages_count s.poolWorkBox = 0) ∧
    ((s.nextWorker w).pc = WorkerPc.chkCount →
      w.pc = WorkerPc.chkActive ∧ s.resultBell = true ∧ s.activeWorkersCount = 0) := by
  obtain ⟨pc, flag⟩ := w
  cases pc
  all_goals
    (simp only [nextWorker]; try split) <;> simp_all

theorem step_pcOf (s : workersPool) (e : Event) (i : Nat) :
    (s.step e).pcOf i = s.pcOf i ∨
    (s.pcOf i = none ∧ (s.step e).pcOf i = some WorkerPc.loopTest) ∨
    (e = Event.work i ∧ ∃ w, s.workers[i]? = some w ∧
      (s.step e).pcOf i = some (s.nextWorker w).pc) := by
  cases e with
  | sendWork m => left; rfl
  | runThreads n => left; simp only [step]; split <;> rfl
  | joinThreads => left; simp only [step]; split <;> rfl
  | await m => left; simp only [step]; split <;> rfl
  | release m => left; simp only [step]; split <;> rfl
  | main =>
    obtain ⟨_, _, _, h4⟩ := ctlStep_flow s
    rcases h4 with h4 | h4
    · left; simp only [step, pcOf]; rw [h4]
    · by_cases hi : i < s.workers.length
      · left
        simp only [step, pcOf]
        rw [h4, List.getElem?_append_left hi]
      · by_cases hi1 : i = s.workers.length
        · right; left
          simp only [step, pcOf]
          rw [h4]
          subst hi1
          simp
        · left
          simp only [step, pcOf]
          rw [h4, List.getElem?_eq_none (by simp; omega), List.getElem?_eq_none (by omega)]
  | work j =>
    simp only [step]
    cases hw : s.workers[j]? with
    | none => left; rfl
    | some w =>
      have hws := workProcessingLoop_workers s j w hw
      have hj : j < s.workers.length := by
        by_contra hc
        rw [List.getElem?_eq_none (by omega)] at hw
        cases hw
      by_cases hji : j = i
      · subst hji
        right; right
        refine ⟨rfl, w, hw, ?_⟩
        simp only [pcOf]
        rw [hws]
        simp [hj]
      · left
        simp only [pcOf]
        rw [hws, List.getElem?_set]
        simp [hji]

theorem messages_count_zero (q : List (Option BaseWorkRequest))
    (h : postbox.messages_count q = 0) (hl : q.length < 4294967296) : q = [] := by
  unfold postbox.messages_count wrap32 at h
  apply List.length_eq_zero.mp
  omega

/-- C3, amended. The pool's `workDone` is set only by the turn of a worker that stands
right after a passed drained check: a worker passes `!messages_count()` only coming from
a passed `resultBell && !activeWorkersCount`. At the turn that passes the first test the
pool has a bell, `activeWorkersCount` is 0 and no worker is between increment and
decrement; at the turn that passes the second test `messages_count()` is 0, so (with
fewer than 2^32 messages queued) the box is empty and every message sent so far has been
dequeued. The flag is never cleared, and `waitForWorkDone()` returns exactly when the
pool has no bell or the flag is set. -/
theorem drained_check (b : Bool) (es : List Event) (e : Event) (s : workersPool)
    (hs : s = (fresh b).run es) (hes : ∀ x ∈ es, okEvent x = true) :
    (s.workDone = false → (s.step e).workDone = true →
      ∃ i, e = Event.work i ∧ s.pcOf i = some WorkerPc.setDone) ∧
    (∀ i, (s.step e).pcOf i = some WorkerPc.setDone → s.pcOf i ≠ some WorkerPc.setDone →
      e = Event.work i ∧ s.pcOf i = some WorkerPc.chkCount ∧
      postbox.messages_count s.poolWorkBox = 0 ∧
      (s.poolWorkBox.length < 4294967296 → s.poolWorkBox = [] ∧ s.received = s.sent)) ∧
    (∀ i, (s.step e).pcOf i = some WorkerPc.chkCount → s.pcOf i ≠ some WorkerPc.chkCount →
      e = Event.work i ∧ s.pcOf i = some WorkerPc.chkActive ∧ s.resultBell = true ∧
      s.activeWorkersCount = 0 ∧ s.workers.countP between = 0) ∧
    (s.workDone = true → (s.step e).workDone = true) ∧
    (s.waitForWorkDone = some s ↔ (s.resultBell = false ∨ s.workDone = true)) ∧
    (s.waitForWorkDone = none ∨ s.waitForWorkDone = some s) := by
  have HC : InvC s := by rw [hs]; exact invC_run es (fresh b) hes (invC_fresh b)
  have HF : InvF s := by rw [hs]; exact invF_run es (fresh b) (invF_fresh b)
  have hwd : (s.step e).workDone = true →
      s.workDone = true ∨ ∃ i, e = Event.work i ∧ s.pcOf i = some WorkerPc.setDone := by
    cases e with
    | sendWork m => exact fun h => Or.inl h
    | runThreads n => simp only [step]; split <;> exact fun h => Or.inl h
    | joinThreads => simp only [step]; split <;> exact fun h => Or.inl h
    | await m => simp only [step]; split <;> exact fun h => Or.inl h
    | release m => simp only [step]; split <;> exact fun h => Or.inl h
    | main => simp only [step]; rw [ctlStep_workDone]; exact fun h => Or.inl h
    | work j =>
      simp only [step]
      cases hw : s.workers[j]? with
      | none => exact fun h => Or.inl h
      | some w =>
        intro h
        rcases (workProcessingLoop_workDone s j w).mp h with h1 | h1
        · exact Or.inl h1
        · exact Or.inr ⟨j, rfl, by simp [pcOf, hw, h1]⟩
  have hkeep : s.workDone = true → (s.step e).workDone = true := by
    intro h
    cases e with
    | sendWork m => exact h
    | runThreads n => simp only [step]; split <;> exact h
    | joinThreads => simp only [step]; split <;> exact h
    | await m => simp only [step]; split <;> exact h
    | release m => simp only [step]; split <;> exact h
    | main => simp only [step]; rw [ctlStep_workDone]; exact h
    | work j =>
      simp only [step]
      cases hw : s.workers[j]? with
      | none => exact h
      | some w => exact (workProcessingLoop_workDone s j w).mpr (Or.inl h)
  refine ⟨?_, ?_, ?_, hkeep, ?_, ?_⟩
  · intro h0 h1
    rcases hwd h1 with h2 | h2
    · rw [h0] at h2; cases h2
    · exact h2
  · intro i h1 h0
    rcases step_pcOf s e i with h2 | ⟨_, h2⟩ | ⟨h2, w, hw, h3⟩
    · rw [h2] at h1; exact absurd h1 h0
    · rw [h2] at h1; cases h1
    · rw [h3] at h1
      simp only [Option.some.injEq] at h1
      obtain ⟨h4, h5⟩ := (nextWorker_check s w).1 h1
      refine ⟨h2, by simp [pcOf, hw, h4], h5, ?_⟩
      intro hl
      have hq := messages_count_zero _ h5 hl
      refine ⟨hq, ?_⟩
      have := HF.fifo
      rw [hq] at this
      simpa using this.symm
  · intro i h1 h0
    rcases step_pcOf s e i with h2 | ⟨_, h2⟩ | ⟨h2, w, hw, h3⟩
    · rw [h2] at h1; exact absurd h1 h0
    · rw [h2] at h1; cases h1
    · rw [h3] at h1
      simp only [Option.some.injEq] at h1
      obtain ⟨h4, h5, h6⟩ := (nextWorker_check s w).2 h1
      refine ⟨h2, by simp [pcOf, hw, h4], h5, h6, ?_⟩
      have := HC.active
      rw [h6] at this
      omega
  · unfold waitForWorkDone
    cases s.resultBell <;> cases s.workDone <;> simp
  · unfold waitForWorkDone
    cases s.resultBell <;> cases s.workDone <;> simp

theorem drained_check_witness :
    (∀ x ∈ earlyDone.take 16, okEvent x = true) ∧
    (((fresh true).run (earlyDone.take 16)).step (Event.work 0)).workDone = true ∧
    ∃ i, Event.work 0 = Event.work i ∧
      ((fresh true).run (earlyDone.take 16)).pcOf i = some WorkerPc.setDone :=
  ⟨by decide, by decide,
   (drained_check true (earlyDone.take 16) (Event.work 0) _ rfl (by decide)).1
     (by decide) (by decide)⟩

theorem run_cons (s : workersPool) (e : Event) (es : List Event) :
    s.run (e :: es) = (s.step e).run es := rfl

theorem spawn_loop (k : Nat) : ∀ (s : workersPool) (i : Nat) (n : Int),
    s.ctl = CtlPc.runSpawn i n → ((i + k : Nat) : Int) = n → i + k ≤ s.threads.length →
    (s.run (List.replicate (k + 1) Event.main)).ctl = CtlPc.idle ∧
    (s.run (List.replicate (k + 1) Event.main)).isRunning = s.isRunning ∧
    (s.run (List.replicate (k + 1) Event.main)).threadsCount = s.threadsCount ∧
    (s.run (List.replicate (k + 1) Event.main)).threads.length = s.threads.length ∧
    (s.run (List.replicate (k + 1) Event.main)).workers
      = s.workers ++ List.replicate k ⟨WorkerPc.loopTest, true⟩ ∧
    (∀ j, j < i → (s.run (List.replicate (k + 1) Event.main)).threads[j]? = s.threads[j]?) ∧
    (∀ j, j < k → (s.run (List.replicate (k + 1) Event.main)).threads[i + j]?
      = some (some (s.workers.length + j))) := by
  induction k with
  | zero =>
    intro s i n hc hn hl
    have hlt : ¬ ((i : Int) < n) := by omega
    have : s.run (List.replicate 1 Event.main) = { s with ctl := CtlPc.idle } := by
      simp [run, step, ctlStep, runThreads, hc, hlt]
    rw [this]
    simp
  | succ k ih =>
    intro s i n hc hn hl
    have hlt : (i : Int) < n := by omega
    have hstep : s.step Event.main =
        { s with workers := s.workers ++ [{ pc := WorkerPc.loopTest, isNotTermMessage := true }],
                 threads := s.threads.set i (some s.workers.length),
                 ctl := CtlPc.runSpawn (i + 1) n } := by
      simp [step, ctlStep, runThreads, hc, hlt]
    have hrun : s.run (List.replicate (k + 1 + 1) Event.main)
        = (s.step Event.main).run (List.replicate (k + 1) Event.main) := by
      rw [List.replicate_succ, run_cons]
    rw [hrun]
    obtain ⟨h1, h2, h3, h4, h5, h6, h7⟩ := ih (s.step Event.main) (i + 1) n
      (by rw [hstep]) (by omega) (by rw [hstep]; simp; omega)
    refine ⟨h1, ?_, ?_, ?_, ?_, ?_, ?_⟩
    · rw [h2, hstep]
    · rw [h3, hstep]
    · rw [h4, hstep]; simp
    · rw [h5, hstep]; simp [List.replicate_succ]
    · intro j hj
      rw [h6 j (by omega), hstep]
      simp only
      rw [List.getElem?_set]
      have : ¬ i = j := by omega
      simp [this]
    · intro j hj
      cases j with
      | zero =>
        simp only [Nat.add_zero]
        rw [h6 i (by omega), hstep]
        simp only
        rw [List.getElem?_set]
        have : i < s.threads.length := by omega
        simp [this]
      | succ j =>
        have h7j := h7 j (by omega)
        rw [show i + (j + 1) = i + 1 + j by omega, h7j, hstep]
        simp only [List.length_append, List.length_singleton, Option.some.injEq]
        omega

/-- C7, amended. `runThreads` does not look at `threadsToRun`. On a stopped pool, for
every `n >= 0`, zero included, the call returns with `threadsCount = n`, `isRunning`
true, a vector of exactly `n` handles, one for each of the `n` workers it started; for
`n = 0` that is no worker and a pool marked running. For `n < 0` the call is left by the
exception of `threads.resize` after `threadsCount = n` and `isRunning = true` were stored,
with no worker started. No turn of another thread changes `isRunning`, `threadsCount`,
`threads` or the position of the controlling thread. -/
theorem runThreads_unchecked (s : workersPool) (n : Int)
    (hidle : s.ctl = CtlPc.idle) (hstop : s.isRunning = false) :
    (0 ≤ n →
      (s.run (callRunThreads n (n.toNat + 5))).ctl = CtlPc.idle ∧
      (s.run (callRunThreads n (n.toNat + 5))).isRunning = true ∧
      (s.run (callRunThreads n (n.toNat + 5))).threadsCount = n ∧
      ((s.run (callRunThreads n (n.toNat + 5))).threads.length : Int) = n ∧
      (s.run (callRunThreads n (n.toNat + 5))).workers
        = s.workers ++ List.replicate n.toNat ⟨WorkerPc.loopTest, true⟩ ∧
      (∀ j, j < n.toNat → (s.run (callRunThreads n (n.toNat + 5))).threads[j]?
        = some (some (s.workers.length + j)))) ∧
    (n < 0 →
      (s.run (callRunThreads n 4)).ctl = CtlPc.crashed ∧
      (s.run (callRunThreads n 4)).isRunning = true ∧
      (s.run (callRunThreads n 4)).threadsCount = n ∧
      (s.run (callRunThreads n 4)).workers = s.workers ∧
      (s.run (callRunThreads n 4)).threads = s.threads) ∧
    (∀ (s1 : workersPool) (e : Event), e ≠ Event.main → (∀ m, e ≠ Event.runThreads m) →
      e ≠ Event.joinThreads →
      (s1.step e).ctl = s1.ctl ∧ (s1.step e).isRunning = s1.isRunning ∧
      (s1.step e).threadsCount = s1.threadsCount ∧ (s1.step e).threads = s1.threads) := by
  have h4 : s.run (callRunThreads n 4) =
      (if n < 0 then { s with threadsCount := n, isRunning := true, ctl := CtlPc.crashed }
       else { s with threadsCount := n, isRunning := true,
                     threads := resize s.threads n.toNat, ctl := CtlPc.runSpawn 0 n }) := by
    simp only [callRunThreads, List.replicate, run, List.foldl, step, hidle, if_true, ctlStep, runThreads,
      hstop, Bool.false_eq_true, if_false]
  refine ⟨?_, ?_, ?_⟩
  · intro hn
    have hn0 : ¬ n < 0 := by omega
    have hsplit : s.run (callRunThreads n (n.toNat + 5))
        = (s.run (callRunThreads n 4)).run (List.replicate (n.toNat + 1) Event.main) := by
      rw [← run_append]
      congr 1
    rw [hsplit, h4]
    simp only [hn0, if_false]
    have hlen : (resize s.threads n.toNat).length = n.toNat := by
      simp [resize]
    obtain ⟨g1, g2, g3, g4, g5, g6, g7⟩ := spawn_loop n.toNat
      { s with threadsCount := n, isRunning := true,
               threads := resize s.threads n.toNat, ctl := CtlPc.runSpawn 0 n }
      0 n rfl (by simp; omega) (by simp [hlen])
    refine ⟨g1, g2, g3, ?_, g5, ?_⟩
    · rw [g4]
      simp only [hlen]
      omega
    · intro j hj
      have := g7 j hj
      simpa using this
  · intro hn
    rw [h4]
    simp [hn]
  · intro s1 e h1 h2 h3
    cases e with
    | sendWork m => exact ⟨rfl, rfl, rfl, rfl⟩
    | runThreads m => exact absurd rfl (h2 m)
    | joinThreads => exact absurd rfl h3
    | main => exact absurd rfl h1
    | await m => simp only [step]; split <;> exact ⟨rfl, rfl, rfl, rfl⟩
    | release m => simp only [step]; split <;> exact ⟨rfl, rfl, rfl, rfl⟩
    | work i =>
      simp only [step]
      cases hw : s1.workers[i]? with
      | none => exact ⟨rfl, rfl, rfl, rfl⟩
      | some w =>
        obtain ⟨f1, f2, f3, f4, f5, f6⟩ := workProcessingLoop_frame s1 i w
        exact ⟨f3, f4, f5, f2⟩

theorem runThreads_unchecked_witness :
    ((fresh true).run (callRunThreads 3 (Int.toNat 3 + 5))).ctl = CtlPc.idle ∧
    ((fresh true).run (callRunThreads 3 (Int.toNat 3 + 5))).isRunning = true ∧
    ((fresh true).run (callRunThreads 3 (Int.toNat 3 + 5))).threadsCount = 3 ∧
    (((fresh true).run (callRunThreads 3 (Int.toNat 3 + 5))).threads.length : Int) = 3 ∧
    ((fresh true).run (callRunThreads 3 (Int.toNat 3 + 5))).workers
      = (fresh true).workers ++ List.replicate (Int.toNat 3) ⟨WorkerPc.loopTest, true⟩ ∧
    (∀ j, j < Int.toNat 3 → ((fresh true).run (callRunThreads 3 (Int.toNat 3 + 5))).threads[j]?
      = some (some ((fresh true).workers.length + j))) :=
  (runThreads_unchecked (fresh true) 3 rfl rfl).1 (by decide)

end workersPool
